import Mathlib

/-!
Verification development for the 42trackerv3 marathon-tracking system.

Strings from the Python source are modelled as lists of characters
(`Str := List Char`); Python floats are modelled as exact rationals `ℚ`;
`None`-able values are modelled with `Option`.  Each definition below is a
shallow embedding of the correspondingly named Python function.
-/

abbrev Str := List Char

/-! ### Character / string helpers (utils/distance_utils.py `_clean_text`,
Python `str.strip` / `\s+` collapse, `str.lower`). -/

/-- Whitespace as recognised by the regex `\s` / `str.strip` on the
characters that occur in this code base. -/
def isSpaceChar (c : Char) : Bool :=
  c = ' ' || c = '\t' || c = '\n' || c = '\r' || c = '\x0b' || c = '\x0c'

/-- Zero-width characters removed by `_ZWSP_RE`
(U+200B, U+200C, U+200D, U+FEFF). -/
def isZwspChar (c : Char) : Bool :=
  c = '​' || c = '‌' || c = '‍' || c = '﻿'

/-- `s.strip()` : drop whitespace from both ends. -/
def stripStr (l : Str) : Str :=
  ((l.dropWhile isSpaceChar).reverse.dropWhile isSpaceChar).reverse

/-- `_WS_RE.sub(" ", s)` : replace every run of whitespace by a single space. -/
def collapseWs : Str → Str
  | [] => []
  | [c] => if isSpaceChar c then [' '] else [c]
  | c :: d :: rest =>
    if isSpaceChar c then
      if isSpaceChar d then collapseWs (d :: rest)
      else ' ' :: collapseWs (d :: rest)
    else c :: collapseWs (d :: rest)

/-- `_clean_text` / the webapp's local `_clean`: remove zero-width characters,
normalise NBSP (U+00A0) to a space, strip, and collapse whitespace runs. -/
def cleanText (l : Str) : Str :=
  collapseWs (stripStr ((l.filter (fun c => !isZwspChar c)).map
    (fun c => if c = ' ' then ' ' else c)))

/-- Python `str.lower` (the keywords compared against are ASCII). -/
def lowerStr (l : Str) : Str := l.map Char.toLower

/-! ### Finish keywords (config/constants.py) and `is_finish_label`
(utils/distance_utils.py, duplicated as `_is_finish_label` in
webapp/services/prediction.py). -/

def FINISH_KEYWORDS_KO : List Str :=
  ["도착".toList, "완주".toList, "골인".toList, "결승".toList, "피니시".toList]

def FINISH_KEYWORDS_EN : List Str :=
  ["finish".toList, "goal".toList, "completed".toList, "end".toList]

/-- Python's substring containment `needle in hay`. -/
def isSubstr (n : Str) : Str → Bool
  | [] => n.isEmpty
  | c :: rest => n.isPrefixOf (c :: rest) || isSubstr n rest

/-- `is_finish_label`: some Korean keyword occurs in the cleaned label, or some
English keyword occurs in its lower-casing. -/
def is_finish_label (label : Str) : Bool :=
  let raw := cleanText label
  let low := lowerStr raw
  FINISH_KEYWORDS_KO.any (fun k => isSubstr k raw) ||
    FINISH_KEYWORDS_EN.any (fun k => isSubstr k low)

/-! ### Distance snapping (utils/distance_utils.py `snap_distance`,
config/constants.py `STANDARD_DISTANCES`). -/

def STANDARD_DISTANCES : List ℚ := [5, 10, 21.1, 42.2, 50, 100, 109]

/-- The `min(STANDARD_DISTANCES, key=lambda d: abs(d-km))` computation:
Python's `min` keeps the first element attaining the minimal key, which the
strict comparison in the fold reproduces. -/
def snapBest (km : ℚ) : ℚ :=
  [(10 : ℚ), 21.1, 42.2, 50, 100, 109].foldl
    (fun b d => if |d - km| < |b - km| then d else b) 5

/-- `snap_distance`: `None` (or non-positive: Python falsiness plus the
`km <= 0` test) maps to `None`; otherwise snap to the nearest standard
distance when within 0.6 km, else return the input unchanged. -/
def snap_distance : Option ℚ → Option ℚ
  | none => none
  | some km =>
    if km ≤ 0 then none
    else if |snapBest km - km| ≤ 0.6 then some (snapBest km) else some km

/-! ### Claim C6 -/

/-- C6 as written: for EVERY input `d`, a standard distance within 0.6 km is
returned when one exists, and otherwise `d` is returned unchanged. -/
def claimC6Stated : Prop :=
  (∀ d s : ℚ, s ∈ STANDARD_DISTANCES → |d - s| ≤ 0.6 →
      snap_distance (some d) = some s) ∧
  (∀ d : ℚ, (∀ s ∈ STANDARD_DISTANCES, 0.6 < |d - s|) →
      snap_distance (some d) = some d)

/-! ### Split records and label normalization
(utils/distance_utils.py `ensure_finish_label`). -/

/-- One parsed split row, as the dicts produced by the parsers:
`point_label`, `point_km`, `net_time`, `pass_clock`, `pace`. -/
structure Split where
  point_label : Option Str
  point_km : Option ℚ
  net_time : Option Str
  pass_clock : Option Str
  pace : Option Str
deriving DecidableEq

/-- The `if race_total_km:` truthiness test followed by `float(...)`:
`None` and `0` give no target, any other value is kept. -/
def effTarget : Option ℚ → Option ℚ
  | none => none
  | some t => if t = 0 then none else some t

/-- The distance-based promotion test of `ensure_finish_label`:
`kmf >= target - 1.0` when a target is known, else `41.5 <= kmf <= 43.0`;
no promotion when the km is unknown. -/
def finishTail (target kmf : Option ℚ) : Bool :=
  match target, kmf with
  | some t, some k => decide (t - 1 ≤ k)
  | none, some k => decide (41.5 ≤ k ∧ k ≤ 43)
  | _, none => false

/-- `ensure_finish_label`: if the last split's cleaned label is not a finish
label, promote it to `Finish` when the distance-based test fires. -/
def ensure_finish_label (splits : List Split) (race_total_km : Option ℚ) :
    List Split :=
  match splits.getLast? with
  | none => splits
  | some last =>
    if is_finish_label (cleanText (last.point_label.getD [])) then splits
    else if finishTail (effTarget race_total_km) last.point_km then
      splits.dropLast ++ [{ last with point_label := some "Finish".toList }]
    else splits

/-! ### Claim C5 -/

/-- C5's promotion condition as written: (a) a total distance is KNOWN
(`some`) and the last km is at least total minus 1, or (b) no total is known
and the last km lies in [41.5, 43]. -/
def c5_claim_cond (last : Split) (total : Option ℚ) : Prop :=
  (∃ t, total = some t ∧ ∃ k, last.point_km = some k ∧ t - 1 ≤ k) ∨
  (total = none ∧ ∃ k, last.point_km = some k ∧ 41.5 ≤ k ∧ k ≤ 43)

/-- C5 as written: the last split's label is set to `Finish` exactly when
`c5_claim_cond` holds, everything else unchanged. -/
def claimC5Stated : Prop :=
  ∀ (splits : List Split) (last : Split) (total : Option ℚ),
    splits.getLast? = some last →
    is_finish_label (cleanText (last.point_label.getD [])) = false →
    (c5_claim_cond last total →
        ensure_finish_label splits total =
          splits.dropLast ++ [{ last with point_label := some "Finish".toList }]) ∧
    (¬ c5_claim_cond last total → ensure_finish_label splits total = splits)

def c5_ex_split : Split :=
  { point_label := some "40km".toList, point_km := some 40,
    net_time := none, pass_clock := none, pace := none }

/-- C5's promotion condition, amended: a known total of `0` counts as no
total (Python falsiness of `race_total_km`). -/
def c5_amended_cond (last : Split) (total : Option ℚ) : Prop :=
  (∃ t, total = some t ∧ t ≠ 0 ∧ ∃ k, last.point_km = some k ∧ t - 1 ≤ k) ∨
  ((total = none ∨ total = some 0) ∧
    ∃ k, last.point_km = some k ∧ 41.5 ≤ k ∧ k ≤ 43)

/-! ### Decimal numerals and time parsing (utils/time_utils.py
`sec_from_mmss`; duration formatting in
webapp/services/prediction.py `calculate_prediction`). -/

/-- The decimal digit character for `n < 10`. -/
def digitChar (n : ℕ) : Char := Char.ofNat (48 + n)

/-- Decimal rendering of a natural number (Python `f"{n}"`), written with
explicit fuel so that it evaluates by kernel reduction. -/
def natReprAux : ℕ → ℕ → Str → Str
  | 0, _, acc => acc
  | fuel + 1, n, acc =>
    if n < 10 then digitChar n :: acc
    else natReprAux fuel (n / 10) (digitChar (n % 10) :: acc)

def natRepr (n : ℕ) : Str := natReprAux (n + 1) n []

/-- Python `f"{z}"` on an int. -/
def intRepr (z : ℤ) : Str :=
  if z < 0 then '-' :: natRepr z.natAbs else natRepr z.toNat

/-- Python `f"{z:02d}"`. -/
def pad2i (z : ℤ) : Str :=
  if 0 ≤ z ∧ z < 10 then ['0', digitChar z.toNat] else intRepr z

/-- Numeric value of a digit string (how Python's `int` reads digits). -/
def digitsVal (l : Str) : ℕ := l.foldl (fun a c => 10 * a + (c.toNat - 48)) 0

/-- Python `int(...)`, restricted to the unsigned decimal numerals that occur
in the time strings handled here (sign handling never arises). -/
def parseNat? (l : Str) : Option ℕ :=
  let t := stripStr l
  if t.isEmpty then none
  else if t.all Char.isDigit then some (digitsVal t) else none

/-- Python `float(...)`, restricted to `digits[.digits]` numerals. -/
def parseDec? (l : Str) : Option ℚ :=
  let t := stripStr l
  let ip := t.takeWhile Char.isDigit
  match t.dropWhile Char.isDigit with
  | [] => if ip.isEmpty then none else some (digitsVal ip : ℚ)
  | '.' :: fp =>
    if ip.isEmpty || fp.isEmpty || !(fp.all Char.isDigit) then none
    else some ((digitsVal ip : ℚ) + (digitsVal fp : ℚ) / (10 : ℚ) ^ fp.length)
  | _ => none

/-- Python 3 `round` (half-to-even) on an exact rational. -/
def pyRound (q : ℚ) : ℤ :=
  if q - (⌊q⌋ : ℚ) < 1 / 2 then ⌊q⌋
  else if 1 / 2 < q - (⌊q⌋ : ℚ) then ⌊q⌋ + 1
  else if ⌊q⌋ % 2 = 0 then ⌊q⌋ else ⌊q⌋ + 1

/-- Python `s.split(":")`. -/
def splitOnColon : Str → List Str
  | [] => [[]]
  | c :: rest =>
    if c = ':' then [] :: splitOnColon rest
    else
      match splitOnColon rest with
      | [] => [[c]]
      | p :: ps => (c :: p) :: ps

/-- `sec_from_mmss`: strip, split on `:`; three parts are int hours/minutes
plus float seconds, two parts are int minutes plus float seconds; the result
is the rounded total in whole seconds; anything else is `None`. -/
def sec_from_mmss (l : Str) : Option ℤ :=
  if l.isEmpty then none
  else
    match splitOnColon (stripStr l) with
    | [p0, p1, p2] =>
      match parseNat? p0, parseNat? p1, parseDec? p2 with
      | some h, some m, some s =>
        some (pyRound (((h * 3600 + m * 60 : ℕ) : ℚ) + s))
      | _, _, _ => none
    | [p0, p1] =>
      match parseNat? p0, parseDec? p1 with
      | some m, some s => some (pyRound (((m * 60 : ℕ) : ℚ) + s))
      | _, _ => none
    | _ => none

/-- The duration formatter of `PredictionService.calculate_prediction`:
`f"{h}:{m:02d}:{s:02d}"` when the hour part is positive, else
`f"{m:02d}:{s:02d}"`, with Python floor division and modulo. -/
def formatDuration (n : ℤ) : Str :=
  if 0 < n.fdiv 3600 then
    intRepr (n.fdiv 3600) ++
      (':' :: (pad2i ((n.fmod 3600).fdiv 60) ++ (':' :: pad2i (n.fmod 60))))
  else pad2i ((n.fmod 3600).fdiv 60) ++ (':' :: pad2i (n.fmod 60))

/-! ### Claim C8 -/

/-- The canonical `H:MM:SS` rendering. -/
def mkHMS (h m s : ℕ) : Str :=
  intRepr (h : ℤ) ++ (':' :: (pad2i (m : ℤ) ++ (':' :: pad2i (s : ℤ))))

/-- The canonical `MM:SS` rendering. -/
def mkMS (m s : ℕ) : Str := pad2i (m : ℤ) ++ (':' :: pad2i (s : ℤ))

/-- C8 as written: the round-trip holds for EVERY string of the form
`H:MM:SS` (any hour value, including 0) or `MM:SS`. -/
def claimC8Stated : Prop :=
  (∀ h m s : ℕ, m < 60 → s < 60 →
      (sec_from_mmss (mkHMS h m s)).map formatDuration = some (mkHMS h m s)) ∧
  (∀ m s : ℕ, m < 60 → s < 60 →
      (sec_from_mmss (mkMS m s)).map formatDuration = some (mkMS m s))

/-! ### Adaptive scheduler (crawler/scheduler.py `CrawlerScheduler`,
`AdaptiveScheduler`).  `time.time()` is modelled by passing `now : ℚ`
explicitly; marathon ids are integers; the two per-marathon dicts become
functions to `Option`. -/

structure AdaptiveScheduler where
  min_marathon_interval : ℚ
  last_marathon_run : ℤ → Option ℚ
  failure_count : ℤ → Option ℕ

/-- `self.last_marathon_run.get(marathon_id, 0)`. -/
def getLastRun (st : AdaptiveScheduler) (mid : ℤ) : ℚ :=
  (st.last_marathon_run mid).getD 0

/-- `self.failure_count.get(marathon_id, 0)`. -/
def getFailures (st : AdaptiveScheduler) (mid : ℤ) : ℕ :=
  (st.failure_count mid).getD 0

/-- `CrawlerScheduler.should_run_marathon`:
`(now - last_run) >= max(min_marathon_interval, refresh_sec)`. -/
def should_run_marathon_base (st : AdaptiveScheduler) (mid : ℤ)
    (refresh_sec now : ℚ) : Bool :=
  decide (max st.min_marathon_interval refresh_sec ≤ now - getLastRun st mid)

/-- `AdaptiveScheduler.should_run_marathon`: the base check, then no backoff
when there are no failures, else
`(now - last_run) >= min(refresh_sec * 2.0 ** failures, 300)`. -/
def should_run_marathon (st : AdaptiveScheduler) (mid : ℤ)
    (refresh_sec now : ℚ) : Bool :=
  if should_run_marathon_base st mid refresh_sec now = false then false
  else if getFailures st mid = 0 then true
  else decide (min (refresh_sec * 2 ^ getFailures st mid) 300 ≤
    now - getLastRun st mid)

/-- `mark_marathon_run`: record `now` as the marathon's last run. -/
def mark_marathon_run (st : AdaptiveScheduler) (mid : ℤ) (now : ℚ) :
    AdaptiveScheduler :=
  { st with last_marathon_run := fun i =>
      if i = mid then some now else st.last_marathon_run i }

/-- `record_success`: mark the run and drop the failure counter. -/
def record_success (st : AdaptiveScheduler) (mid : ℤ) (now : ℚ) :
    AdaptiveScheduler :=
  let st' := mark_marathon_run st mid now
  { st' with failure_count := fun i =>
      if i = mid then none else st.failure_count i }

/-- `record_failure`: mark the run and increment the failure counter. -/
def record_failure (st : AdaptiveScheduler) (mid : ℤ) (now : ℚ) :
    AdaptiveScheduler :=
  let st' := mark_marathon_run st mid now
  { st' with failure_count := fun i =>
      if i = mid then some (getFailures st mid + 1) else st.failure_count i }

/-! ### Claim C2 -/

/-- C2's admission rule as written: with failures present, admitted IF AND
ONLY IF `now - last_run` is at least the capped exponential backoff — with no
interference from the base interval check. -/
def claimC2Stated : Prop :=
  (∀ (st : AdaptiveScheduler) (mid : ℤ) (refresh_sec now : ℚ),
      0 < getFailures st mid →
      (should_run_marathon st mid refresh_sec now = true ↔
        min (refresh_sec * 2 ^ getFailures st mid) 300 ≤
          now - getLastRun st mid)) ∧
  (∀ (st : AdaptiveScheduler) (mid : ℤ) (now : ℚ),
      getFailures (record_success st mid now) mid = 0 ∧
      getLastRun (record_success st mid now) mid = now) ∧
  (∀ (st : AdaptiveScheduler) (mid : ℤ) (now : ℚ),
      getFailures (record_failure st mid now) mid = getFailures st mid + 1 ∧
      getLastRun (record_failure st mid now) mid = now)

/-- A scheduler state with one prior failure and `last_run = 0`, used to
refute the claimed iff at `refresh_sec = 400`. -/
def c2_ex_state : AdaptiveScheduler :=
  { min_marathon_interval := 5,
    last_marathon_run := fun _ => some 0,
    failure_count := fun _ => some 1 }

/-! ### Split upserts (crawler/engine.py `_save_results`): the `splits` table
keyed by `(participant_id, point_label)`; `ON CONFLICT ... DO UPDATE` touches
only `net_time`, `pass_clock`, `pace`, `seen_at`. `now_iso` timestamps are
modelled as rationals. -/

structure SplitRow where
  participant_id : ℤ
  point_label : Str
  point_km : Option ℚ
  net_time : Option Str
  pass_clock : Option Str
  pace : Option Str
  seen_at : ℚ
deriving DecidableEq

/-- The `(participant_id, point_label)` conflict key. -/
def rowKey (r : SplitRow) : ℤ × Str := (r.participant_id, r.point_label)

/-- The `DO UPDATE SET` clause: only `net_time`, `pass_clock`, `pace` and
`seen_at` are taken from the excluded (incoming) row. -/
def updRow (row r : SplitRow) : SplitRow :=
  { row with
    net_time := r.net_time
    pass_clock := r.pass_clock
    pace := r.pace
    seen_at := r.seen_at }

/-- One `INSERT ... ON CONFLICT(participant_id, point_label) DO UPDATE`. -/
def upsertSplit (table : List SplitRow) (r : SplitRow) : List SplitRow :=
  if table.any (fun row => decide (rowKey row = rowKey r)) then
    table.map (fun row => if rowKey row = rowKey r then updRow row r else row)
  else table ++ [r]

/-- Row lookup by key (the table's unique index). -/
def findRow (table : List SplitRow) (k : ℤ × Str) : Option SplitRow :=
  table.find? (fun row => decide (rowKey row = k))

/-- One crawl tick's `executemany`: every split of the batch is written in
order with the tick's single `now_iso` timestamp `t`. -/
def applyTick : List SplitRow → List SplitRow → ℚ → List SplitRow
  | table, [], _ => table
  | table, r :: bs, t => applyTick (upsertSplit table { r with seen_at := t }) bs t

def c4_ex_row : SplitRow :=
  { participant_id := 1, point_label := "Finish".toList, point_km := none,
    net_time := some "3:00:00".toList, pass_clock := none, pace := none,
    seen_at := 0 }

/-! ### Certificate-image enqueueing (crawler/engine.py `_save_results`):
`is_finished` scans the parsed splits for a lower-cased label containing
`"finish"` or `"도착"`; an image job is enqueued per asset only when the url
and the bib are present ("truthy") and `is_finished` holds. -/

structure ParsedAsset where
  kind : Option Str
  host : Option Str
  url : Option Str

/-- One split's contribution to `is_finished`:
`"finish" in label.lower() or "도착" in label.lower()`. -/
def labelIndicatesFinishEngine (s : Split) : Bool :=
  isSubstr "finish".toList (lowerStr (s.point_label.getD [])) ||
    isSubstr "도착".toList (lowerStr (s.point_label.getD []))

/-- The `is_finished` flag computed per crawl result. -/
def isFinishedCheck (splits : List Split) : Bool :=
  splits.any labelIndicatesFinishEngine

/-- Whether some certificate-image download job is enqueued for this result:
an asset with a truthy url, a truthy bib, and `is_finished`. -/
def imageJobEnqueued (splits : List Split) (assets : List ParsedAsset)
    (bib : Option Str) : Bool :=
  assets.any (fun a =>
    match a.url with
    | none => false
    | some u =>
      if u = [] then false
      else
        match bib with
        | none => false
        | some b => if b = [] then false else isFinishedCheck splits)

def c10_ex_asset : ParsedAsset :=
  { kind := some "certificate".toList, host := some "img.example".toList,
    url := some "http://img.example/cert.jpg".toList }

/-- A participant whose only finish indication is the keyword `완주`. -/
def c10_ex_split : Split :=
  { point_label := some "완주".toList, point_km := none,
    net_time := some "3:00:00".toList, pass_clock := none, pace := none }

/-! ### Per-host TLS verification (utils/network_utils.py `verify_for_host`,
config/settings.py `INSECURE_HOSTS`). -/

/-- Python `cfg.split(",")`. -/
def splitOnComma : Str → List Str
  | [] => [[]]
  | c :: rest =>
    if c = ',' then [] :: splitOnComma rest
    else
      match splitOnComma rest with
      | [] => [[c]]
      | p :: ps => (c :: p) :: ps

/-- The `INSECURE_HOSTS` construction: split the configured string on commas,
strip, lower-case, and drop empty entries. -/
def parseInsecureHosts (cfg : Str) : List Str :=
  (splitOnComma cfg).filterMap (fun h =>
    let t := stripStr h
    if t.isEmpty then none else some (lowerStr t))

/-- The default `SMARTCHIP_INSECURE_HOSTS` value from config/settings.py. -/
def default_insec : Str :=
  "smartchip.co.kr,www.smartchip.co.kr, myresult.co.kr, image.smartchip.co.kr, img.spct.kr".toList

/-- `verify_for_host`: lower-case the host, verify iff it is not an insecure
host and the global toggle is on. -/
def verify_for_host (insecure_hosts : List Str) (verify_ssl_default : Bool)
    (host : Str) : Bool :=
  !(decide (lowerStr host ∈ insecure_hosts)) && verify_ssl_default

/-! ### Claim C7 -/

/-- C7 as written: with the global toggle on, verification is disabled
exactly for hosts matching one of the configured entries as a SUFFIX. -/
def claimC7Stated : Prop :=
  ∀ cfg host : Str,
    verify_for_host (parseInsecureHosts cfg) true host = false ↔
      ∃ sfx ∈ parseInsecureHosts cfg, sfx.isSuffixOf (lowerStr host) = true

/-! ### Clock-gap net-time accumulator (webapp/services/records.py
`CALC_NET_TIME_SQL` and `RecordsService._calculate_net_time_from_clocks`).
Rows are the participant's splits that carry a `pass_clock`; `seen_at`
timestamps are rationals.  SQLite's `substr(...)*k` numeric coercion of a
text column is modelled by `parse2` (numeric prefix of the two characters,
else 0). -/

structure ClockRow where
  point_km : ℚ
  pass_clock : Str
  seen_at : ℚ
deriving DecidableEq

/-- Numeric value SQLite assigns to a two-character substring used in
arithmetic: the leading digits, else 0. -/
def parse2 (a b : Char) : ℕ :=
  if a.isDigit then
    if b.isDigit then 10 * (a.toNat - 48) + (b.toNat - 48) else a.toNat - 48
  else 0

/-- `substr(pass_clock,1,2)*3600 + substr(pass_clock,4,2)*60 +
substr(pass_clock,7,2)`: seconds-of-day of an `HH:MM:SS` clock. -/
def clockSecOf (l : Str) : ℤ :=
  (parse2 (l.getD 0 ' ') (l.getD 1 ' ') : ℤ) * 3600 +
    (parse2 (l.getD 3 ' ') (l.getD 4 ' ') : ℤ) * 60 +
    (parse2 (l.getD 6 ' ') (l.getD 7 ' ') : ℤ)

/-- The distinct `point_km` values, first occurrences kept. -/
def distinctKms (l : List ℚ) : List ℚ :=
  l.foldl (fun acc x => if x ∈ acc then acc else acc ++ [x]) []

def insertSorted (x : ℚ) : List ℚ → List ℚ
  | [] => [x]
  | y :: ys => if x ≤ y then x :: y :: ys else y :: insertSorted x ys

/-- `ORDER BY point_km` (on the distinct km values). -/
def sortKms (l : List ℚ) : List ℚ := l.foldr insertSorted []

def groupFor (rows : List ClockRow) (km : ℚ) : List ClockRow :=
  rows.filter (fun r => decide (r.point_km = km))

/-- `ROW_NUMBER() OVER (PARTITION BY point_km ORDER BY datetime(seen_at)
DESC) = 1`: the row with the most recent `seen_at` of its km group. -/
def pickLatest (rows : List ClockRow) : Option ClockRow :=
  rows.foldl
    (fun acc r =>
      match acc with
      | none => some r
      | some b => if b.seen_at < r.seen_at then some r else some b)
    none

/-- The `ordered` CTE: filter to clocks of length ≥ 8, deduplicate per
`point_km` to the most recent `seen_at`, order by `point_km`. -/
def orderedClocks (rows : List ClockRow) : List ClockRow :=
  let base := rows.filter (fun r => decide (8 ≤ r.pass_clock.length))
  (sortKms (distinctKms (base.map (fun r => r.point_km)))).filterMap
    (fun km => pickLatest (groupFor base km))

/-- The parsed seconds-of-day sequence the SQL accumulates over. -/
def clockSecs (rows : List ClockRow) : List ℤ :=
  (orderedClocks rows).map (fun r => clockSecOf r.pass_clock)

/-- One adjacent gap: `sec - prev`, plus 86400 when negative
(midnight crossing). -/
def gapOf (p : ℤ × ℤ) : ℤ :=
  if p.2 < p.1 then p.2 + 86400 - p.1 else p.2 - p.1

/-- `SUM(gap_sec)` over the adjacent pairs. -/
def gapSum (l : List ℤ) : ℤ :=
  (l.zip l.tail).foldl (fun acc p => acc + gapOf p) 0

/-- Number of backward jumps (adjacent descents). -/
def descents (l : List ℤ) : ℕ :=
  (l.zip l.tail).countP (fun p => decide (p.2 < p.1))

/-- The SQL's `total_seconds`: `NULL` with fewer than two rows
(`SUM` over an empty gap set), else the gap sum. -/
def calc_net_time (rows : List ClockRow) : Option ℤ :=
  if (clockSecs rows).length < 2 then none else some (gapSum (clockSecs rows))

/-- `RecordsService._calculate_net_time_from_clocks`: format the total as
`HH:MM:SS` via `divmod` (`f"{h:02d}:{m:02d}:{s:02d}"`). -/
def calculate_net_time_from_clocks (rows : List ClockRow) : Option Str :=
  match calc_net_time rows with
  | none => none
  | some t =>
    some (pad2i (t.fdiv 3600) ++
      (':' :: (pad2i ((t.fmod 3600).fdiv 60) ++ (':' :: pad2i (t.fmod 60)))))

/-- The spec's example: clocks 23:58:00, 00:02:00, 00:10:00. -/
def c3_ex_rows : List ClockRow :=
  [{ point_km := 1, pass_clock := "23:58:00".toList, seen_at := 0 },
   { point_km := 2, pass_clock := "00:02:00".toList, seen_at := 0 },
   { point_km := 3, pass_clock := "00:10:00".toList, seen_at := 0 }]

/-- Two monotone rows used to instantiate the C3 theorem concretely. -/
def c3_wit_rows : List ClockRow :=
  [{ point_km := 1, pass_clock := "10:00:00".toList, seen_at := 0 },
   { point_km := 2, pass_clock := "10:30:00".toList, seen_at := 0 }]

/-! ### `looks_time` (utils/time_utils.py, regex `TIME_RX` of
config/constants.py): `\\b\\d{1,2}:\\d{2}(?::\\d{2}(?:\\.\\d{1,3})?)?\\b`,
searched anywhere in the string.  Only the boolean result of `search` is
used, so greedy backtracking is modelled as the union of the pattern's
alternatives.  Word characters (`\\w`) are modelled as ASCII alphanumerics,
underscore, and all non-ASCII characters. -/

def isWordChar (c : Char) : Bool :=
  c.isAlphanum || c = '_' || decide (128 ≤ c.toNat)

/-- `\\b` at this position (looking right after a word character). -/
def atBoundary : Str → Bool
  | [] => true
  | c :: _ => !isWordChar c

/-- Consume exactly two digits. -/
def digits2 : Str → Option Str
  | a :: b :: rest => if a.isDigit && b.isDigit then some rest else none
  | _ => none

/-- Consume exactly one digit. -/
def digit1 : Str → Option Str
  | a :: rest => if a.isDigit then some rest else none
  | _ => none

/-- `(?:\\.\\d{1,3})` followed by `\\b`, any digit count alternative. -/
def fracTail : Str → Bool
  | '.' :: rest =>
    (match digits2 rest with
      | some r2 =>
        (match digit1 r2 with
          | some r3 => atBoundary r3
          | none => false) || atBoundary r2
      | none => false) ||
    (match digit1 rest with
      | some r1 => atBoundary r1
      | none => false)
  | _ => false

/-- `(?::\\d{2}(?:\\.\\d{1,3})?)?` followed by `\\b`. -/
def optSecTail (l : Str) : Bool :=
  (match l with
    | ':' :: rest =>
      match digits2 rest with
      | some r2 => fracTail r2 || atBoundary r2
      | none => false
    | _ => false) ||
  atBoundary l

/-- The whole pattern anchored at this position (a word boundary holds just
before it iff the previous character is not a word character, since the
pattern starts with a digit). -/
def matchAt (l : Str) : Bool :=
  (match digits2 l with
    | some r =>
      match r with
      | ':' :: r2 =>
        (match digits2 r2 with
          | some r3 => optSecTail r3
          | none => false)
      | _ => false
    | none => false) ||
  (match digit1 l with
    | some r =>
      match r with
      | ':' :: r2 =>
        (match digits2 r2 with
          | some r3 => optSecTail r3
          | none => false)
      | _ => false
    | none => false)

def searchFrom : Bool → Str → Bool
  | _, [] => false
  | prevW, c :: rest =>
    (!prevW && matchAt (c :: rest)) || searchFrom (isWordChar c) rest

/-- `looks_time`: `TIME_RX.search(text)` is truthy. -/
def looks_time (l : Str) : Bool := searchFrom false l

/-! ### `km_from_label` (utils/distance_utils.py): first
`(\\d+(?:\\.\\d+)?)\\s*km` (case-insensitive) match, else a full-string
number on the stripped label. -/

def digitRun (l : Str) : Str × Str :=
  (l.takeWhile Char.isDigit, l.dropWhile Char.isDigit)

/-- The `number km` pattern anchored here: maximal digit runs suffice since
shorter runs leave a digit where `\\s*km` must start. -/
def kmMatchAt (l : Str) : Option ℚ :=
  let ipr := digitRun l
  if ipr.1.isEmpty then none
  else
    let qr : ℚ × Str :=
      match ipr.2 with
      | '.' :: rest =>
        let fpr := digitRun rest
        if fpr.1.isEmpty then ((digitsVal ipr.1 : ℚ), ipr.2)
        else ((digitsVal ipr.1 : ℚ) + (digitsVal fpr.1 : ℚ) / 10 ^ fpr.1.length, fpr.2)
      | _ => ((digitsVal ipr.1 : ℚ), ipr.2)
    match qr.2.dropWhile isSpaceChar with
    | a :: b :: _ => if a.toLower = 'k' && b.toLower = 'm' then some qr.1 else none
    | _ => none

def kmSearch : Str → Option ℚ
  | [] => none
  | c :: rest =>
    match kmMatchAt (c :: rest) with
    | some q => some q
    | none => kmSearch rest

/-- `km_from_label`. -/
def km_from_label (l : Str) : Option ℚ :=
  if l.isEmpty then none
  else
    match kmSearch l with
    | some q => some q
    | none =>
      let t := stripStr l
      let ipr := digitRun t
      if ipr.1.isEmpty then none
      else
        match ipr.2 with
        | [] => some ((digitsVal ipr.1 : ℚ))
        | '.' :: rest =>
          let fpr := digitRun rest
          if fpr.1.isEmpty || !fpr.2.isEmpty then none
          else some ((digitsVal ipr.1 : ℚ) + (digitsVal fpr.1 : ℚ) / 10 ^ fpr.1.length)
        | _ => none

/-! ### `PredictionService.check_finish_status`
(webapp/services/prediction.py). -/

structure FinishStatus where
  finished : Bool
  finish_point : Option Str
  finish_net : Option Str
  finish_clock : Option Str
deriving DecidableEq

def notFinished : FinishStatus :=
  { finished := false, finish_point := none, finish_net := none,
    finish_clock := none }

/-- `_clean` applied to a possibly missing field. -/
def cleanOpt (s : Option Str) : Str := cleanText (s.getD [])

/-- `looks_time(net) or looks_time(clk) or net or clk`. -/
def gateOk (s : Split) : Bool :=
  looks_time (cleanOpt s.net_time) || looks_time (cleanOpt s.pass_clock) ||
    !(cleanOpt s.net_time).isEmpty || !(cleanOpt s.pass_clock).isEmpty

/-- The success dict: `finish_point := _clean(label) or "Finish"`,
`finish_net := net if looks_time(net) else (net or None)`, likewise for the
clock. -/
def mkFinish (s : Split) : FinishStatus :=
  { finished := true
    finish_point := some (if (cleanOpt s.point_label).isEmpty then "Finish".toList
      else cleanOpt s.point_label)
    finish_net :=
      if looks_time (cleanOpt s.net_time) then some (cleanOpt s.net_time)
      else if (cleanOpt s.net_time).isEmpty then none else some (cleanOpt s.net_time)
    finish_clock :=
      if looks_time (cleanOpt s.pass_clock) then some (cleanOpt s.pass_clock)
      else if (cleanOpt s.pass_clock).isEmpty then none
      else some (cleanOpt s.pass_clock) }

/-- `s.get("point_km") or km_from_label(_clean(s.get("point_label")))`:
Python `or` also falls through on a 0.0 field. -/
def pointKmOf (s : Split) : Option ℚ :=
  match s.point_km with
  | some k => if k = 0 then km_from_label (cleanOpt s.point_label) else some k
  | none => km_from_label (cleanOpt s.point_label)

/-- `snap_distance(total_km) or total_km`. -/
def snappedTotal (total : ℚ) : ℚ :=
  match snap_distance (some total) with
  | some v => if v = 0 then total else v
  | none => total

/-- First match in `DISTANCE_TOLERANCE` (insertion order), default 0.5. -/
def toleranceFor (snapped : ℚ) : ℚ :=
  if 40 ≤ snapped then 3
  else if 20 ≤ snapped ∧ snapped < 40 then 0.8
  else if 15 ≤ snapped ∧ snapped < 20 then 0.8
  else if 10 ≤ snapped ∧ snapped < 15 then 1
  else if 5 ≤ snapped ∧ snapped < 10 then 0.6
  else if 0 ≤ snapped ∧ snapped < 5 then 0.4
  else 0.5

/-- One reverse-scan step of rule 2: skip splits without a km; within
tolerance of the snapped total and carrying a time value, succeed. -/
def rule2Step (total : ℚ) (s : Split) : Option FinishStatus :=
  match pointKmOf s with
  | none => none
  | some pk =>
    if |pk - snappedTotal total| ≤ toleranceFor (snappedTotal total) then
      (if gateOk s then some (mkFinish s) else none)
    else none

/-- Rule 3: with a positive total, the last split at ≥ 90% of the total and
carrying a time value counts as finished. -/
def rule3Check (splits : List Split) (total_km : ℚ) : FinishStatus :=
  if 0 < total_km then
    match splits.getLast? with
    | some last =>
      match pointKmOf last with
      | some k =>
        if 0.9 ≤ k / total_km then
          (if gateOk last then mkFinish last else notFinished)
        else notFinished
      | none => notFinished
    | none => notFinished
  else notFinished

/-- Rule 2 (reverse scan), falling through to rule 3. -/
def rule2Check (splits : List Split) (total_km : ℚ) : FinishStatus :=
  match splits.reverse.findSome? (rule2Step total_km) with
  | some res => res
  | none => rule3Check splits total_km

/-- `check_finish_status`: rule 1 checks only the LAST split whose label is
a finish label; when it carries no value at all, fall through to rule 2. -/
def check_finish_status (splits : List Split) (total_km : ℚ) : FinishStatus :=
  if splits.isEmpty then notFinished
  else
    match (splits.filter (fun s => is_finish_label (cleanOpt s.point_label))).getLast? with
    | some lf => if gateOk lf then mkFinish lf else rule2Check splits total_km
    | none => rule2Check splits total_km

/-! ### Claim C1 -/

/-- C1's rule list as written: rule 1 fires when SOME split has a finish
label and carries a value; rule 2 compares the split's `point_km` FIELD
against the (unsnapped) total with the tolerance indexed by the snapped
total; rule 3 divides the last split's `point_km` field by the total. -/
def claimC1Fin (splits : List Split) (total : ℚ) : Bool :=
  if splits.any (fun s => is_finish_label (cleanOpt s.point_label) && gateOk s) then
    true
  else if splits.any (fun s =>
      match s.point_km with
      | some pk => decide (|pk - total| ≤ toleranceFor (snappedTotal total)) && gateOk s
      | none => false) then
    true
  else
    match splits.getLast? with
    | some last =>
      match last.point_km with
      | some k => decide (0.9 ≤ k / total) && gateOk last
      | none => false
    | none => false

/-- C1 as written, reduced to the finished verdict. -/
def claimC1Stated : Prop :=
  ∀ (splits : List Split) (total : ℚ), splits ≠ [] →
    (check_finish_status splits total).finished = claimC1Fin splits total

/-- Finish-labelled split carrying a net time. -/
def c1_ex_s1 : Split :=
  { point_label := some "Finish".toList, point_km := none,
    net_time := some "1:00:00".toList, pass_clock := none, pace := none }

/-- A later finish-labelled split (도착) carrying no values at all. -/
def c1_ex_s2 : Split :=
  { point_label := some "도착".toList, point_km := none,
    net_time := none, pass_clock := none, pace := none }

def c1_ex_splits : List Split := [c1_ex_s1, c1_ex_s2]

/-- A single finish-labelled split carrying a net time. -/
def c1_wit_split : Split :=
  { point_label := some "Finish".toList, point_km := none,
    net_time := some "1:23:45".toList, pass_clock := none, pace := none }


-- ===== Theorems =====

theorem snapBest_mem (d : ℚ) : snapBest d ∈ STANDARD_DISTANCES := by
  simp only [snapBest, List.foldl]
  split_ifs <;> simp [STANDARD_DISTANCES]

theorem snapkm_5 (d : ℚ) (h : |d - 5| ≤ 0.6) :
    snap_distance (some d) = some 5 := by
  obtain ⟨hlo, hhi⟩ := abs_le.mp h
  have hcw : |(5 : ℚ) - d| ≤ 0.6 := by rw [abs_sub_comm]; exact h
  have p1 : ¬(|(10 : ℚ) - d| < |(5 : ℚ) - d|) := by
    intro hc; linarith [le_abs_self ((10 : ℚ) - d), hcw]
  have p2 : ¬(|(21.1 : ℚ) - d| < |(5 : ℚ) - d|) := by
    intro hc; linarith [le_abs_self ((21.1 : ℚ) - d), hcw]
  have p3 : ¬(|(42.2 : ℚ) - d| < |(5 : ℚ) - d|) := by
    intro hc; linarith [le_abs_self ((42.2 : ℚ) - d), hcw]
  have p4 : ¬(|(50 : ℚ) - d| < |(5 : ℚ) - d|) := by
    intro hc; linarith [le_abs_self ((50 : ℚ) - d), hcw]
  have p5 : ¬(|(100 : ℚ) - d| < |(5 : ℚ) - d|) := by
    intro hc; linarith [le_abs_self ((100 : ℚ) - d), hcw]
  have p6 : ¬(|(109 : ℚ) - d| < |(5 : ℚ) - d|) := by
    intro hc; linarith [le_abs_self ((109 : ℚ) - d), hcw]
  have hb : snapBest d = 5 := by
    simp only [snapBest, List.foldl]
    rw [if_neg p1, if_neg p2, if_neg p3, if_neg p4, if_neg p5, if_neg p6]
  have hd0 : ¬(d ≤ 0) := by linarith
  simp only [snap_distance]
  rw [if_neg hd0, hb, if_pos hcw]

theorem snapkm_10 (d : ℚ) (h : |d - 10| ≤ 0.6) :
    snap_distance (some d) = some 10 := by
  obtain ⟨hlo, hhi⟩ := abs_le.mp h
  have hcw : |(10 : ℚ) - d| ≤ 0.6 := by rw [abs_sub_comm]; exact h
  have e5 : |(5 : ℚ) - d| = d - 5 := by
    rw [abs_of_nonpos (by linarith)]; ring
  have p1 : |(10 : ℚ) - d| < |(5 : ℚ) - d| := by
    rw [e5]; linarith [abs_le.mp hcw]
  have p2 : ¬(|(21.1 : ℚ) - d| < |(10 : ℚ) - d|) := by
    intro hc; linarith [le_abs_self ((21.1 : ℚ) - d), hcw]
  have p3 : ¬(|(42.2 : ℚ) - d| < |(10 : ℚ) - d|) := by
    intro hc; linarith [le_abs_self ((42.2 : ℚ) - d), hcw]
  have p4 : ¬(|(50 : ℚ) - d| < |(10 : ℚ) - d|) := by
    intro hc; linarith [le_abs_self ((50 : ℚ) - d), hcw]
  have p5 : ¬(|(100 : ℚ) - d| < |(10 : ℚ) - d|) := by
    intro hc; linarith [le_abs_self ((100 : ℚ) - d), hcw]
  have p6 : ¬(|(109 : ℚ) - d| < |(10 : ℚ) - d|) := by
    intro hc; linarith [le_abs_self ((109 : ℚ) - d), hcw]
  have hb : snapBest d = 10 := by
    simp only [snapBest, List.foldl]
    rw [if_pos p1, if_neg p2, if_neg p3, if_neg p4, if_neg p5, if_neg p6]
  have hd0 : ¬(d ≤ 0) := by linarith
  simp only [snap_distance]
  rw [if_neg hd0, hb, if_pos hcw]

theorem snapkm_21 (d : ℚ) (h : |d - 21.1| ≤ 0.6) :
    snap_distance (some d) = some 21.1 := by
  obtain ⟨hlo, hhi⟩ := abs_le.mp h
  have hcw : |(21.1 : ℚ) - d| ≤ 0.6 := by rw [abs_sub_comm]; exact h
  have e5 : |(5 : ℚ) - d| = d - 5 := by
    rw [abs_of_nonpos (by linarith)]; ring
  have e10 : |(10 : ℚ) - d| = d - 10 := by
    rw [abs_of_nonpos (by linarith)]; ring
  have p1 : |(10 : ℚ) - d| < |(5 : ℚ) - d| := by
    rw [e10, e5]; linarith
  have p2 : |(21.1 : ℚ) - d| < |(10 : ℚ) - d| := by
    rw [e10]; linarith [abs_le.mp hcw]
  have p3 : ¬(|(42.2 : ℚ) - d| < |(21.1 : ℚ) - d|) := by
    intro hc; linarith [le_abs_self ((42.2 : ℚ) - d), hcw]
  have p4 : ¬(|(50 : ℚ) - d| < |(21.1 : ℚ) - d|) := by
    intro hc; linarith [le_abs_self ((50 : ℚ) - d), hcw]
  have p5 : ¬(|(100 : ℚ) - d| < |(21.1 : ℚ) - d|) := by
    intro hc; linarith [le_abs_self ((100 : ℚ) - d), hcw]
  have p6 : ¬(|(109 : ℚ) - d| < |(21.1 : ℚ) - d|) := by
    intro hc; linarith [le_abs_self ((109 : ℚ) - d), hcw]
  have hb : snapBest d = 21.1 := by
    simp only [snapBest, List.foldl]
    rw [if_pos p1, if_pos p2, if_neg p3, if_neg p4, if_neg p5, if_neg p6]
  have hd0 : ¬(d ≤ 0) := by linarith
  simp only [snap_distance]
  rw [if_neg hd0, hb, if_pos hcw]

theorem snapkm_42 (d : ℚ) (h : |d - 42.2| ≤ 0.6) :
    snap_distance (some d) = some 42.2 := by
  obtain ⟨hlo, hhi⟩ := abs_le.mp h
  have hcw : |(42.2 : ℚ) - d| ≤ 0.6 := by rw [abs_sub_comm]; exact h
  have e5 : |(5 : ℚ) - d| = d - 5 := by
    rw [abs_of_nonpos (by linarith)]; ring
  have e10 : |(10 : ℚ) - d| = d - 10 := by
    rw [abs_of_nonpos (by linarith)]; ring
  have e21_1 : |(21.1 : ℚ) - d| = d - 21.1 := by
    rw [abs_of_nonpos (by linarith)]; ring
  have p1 : |(10 : ℚ) - d| < |(5 : ℚ) - d| := by
    rw [e10, e5]; linarith
  have p2 : |(21.1 : ℚ) - d| < |(10 : ℚ) - d| := by
    rw [e21_1, e10]; linarith
  have p3 : |(42.2 : ℚ) - d| < |(21.1 : ℚ) - d| := by
    rw [e21_1]; linarith [abs_le.mp hcw]
  have p4 : ¬(|(50 : ℚ) - d| < |(42.2 : ℚ) - d|) := by
    intro hc; linarith [le_abs_self ((50 : ℚ) - d), hcw]
  have p5 : ¬(|(100 : ℚ) - d| < |(42.2 : ℚ) - d|) := by
    intro hc; linarith [le_abs_self ((100 : ℚ) - d), hcw]
  have p6 : ¬(|(109 : ℚ) - d| < |(42.2 : ℚ) - d|) := by
    intro hc; linarith [le_abs_self ((109 : ℚ) - d), hcw]
  have hb : snapBest d = 42.2 := by
    simp only [snapBest, List.foldl]
    rw [if_pos p1, if_pos p2, if_pos p3, if_neg p4, if_neg p5, if_neg p6]
  have hd0 : ¬(d ≤ 0) := by linarith
  simp only [snap_distance]
  rw [if_neg hd0, hb, if_pos hcw]

theorem snapkm_50 (d : ℚ) (h : |d - 50| ≤ 0.6) :
    snap_distance (some d) = some 50 := by
  obtain ⟨hlo, hhi⟩ := abs_le.mp h
  have hcw : |(50 : ℚ) - d| ≤ 0.6 := by rw [abs_sub_comm]; exact h
  have e5 : |(5 : ℚ) - d| = d - 5 := by
    rw [abs_of_nonpos (by linarith)]; ring
  have e10 : |(10 : ℚ) - d| = d - 10 := by
    rw [abs_of_nonpos (by linarith)]; ring
  have e21_1 : |(21.1 : ℚ) - d| = d - 21.1 := by
    rw [abs_of_nonpos (by linarith)]; ring
  have e42_2 : |(42.2 : ℚ) - d| = d - 42.2 := by
    rw [abs_of_nonpos (by linarith)]; ring
  have p1 : |(10 : ℚ) - d| < |(5 : ℚ) - d| := by
    rw [e10, e5]; linarith
  have p2 : |(21.1 : ℚ) - d| < |(10 : ℚ) - d| := by
    rw [e21_1, e10]; linarith
  have p3 : |(42.2 : ℚ) - d| < |(21.1 : ℚ) - d| := by
    rw [e42_2, e21_1]; linarith
  have p4 : |(50 : ℚ) - d| < |(42.2 : ℚ) - d| := by
    rw [e42_2]; linarith [abs_le.mp hcw]
  have p5 : ¬(|(100 : ℚ) - d| < |(50 : ℚ) - d|) := by
    intro hc; linarith [le_abs_self ((100 : ℚ) - d), hcw]
  have p6 : ¬(|(109 : ℚ) - d| < |(50 : ℚ) - d|) := by
    intro hc; linarith [le_abs_self ((109 : ℚ) - d), hcw]
  have hb : snapBest d = 50 := by
    simp only [snapBest, List.foldl]
    rw [if_pos p1, if_pos p2, if_pos p3, if_pos p4, if_neg p5, if_neg p6]
  have hd0 : ¬(d ≤ 0) := by linarith
  simp only [snap_distance]
  rw [if_neg hd0, hb, if_pos hcw]

theorem snapkm_100 (d : ℚ) (h : |d - 100| ≤ 0.6) :
    snap_distance (some d) = some 100 := by
  obtain ⟨hlo, hhi⟩ := abs_le.mp h
  have hcw : |(100 : ℚ) - d| ≤ 0.6 := by rw [abs_sub_comm]; exact h
  have e5 : |(5 : ℚ) - d| = d - 5 := by
    rw [abs_of_nonpos (by linarith)]; ring
  have e10 : |(10 : ℚ) - d| = d - 10 := by
    rw [abs_of_nonpos (by linarith)]; ring
  have e21_1 : |(21.1 : ℚ) - d| = d - 21.1 := by
    rw [abs_of_nonpos (by linarith)]; ring
  have e42_2 : |(42.2 : ℚ) - d| = d - 42.2 := by
    rw [abs_of_nonpos (by linarith)]; ring
  have e50 : |(50 : ℚ) - d| = d - 50 := by
    rw [abs_of_nonpos (by linarith)]; ring
  have p1 : |(10 : ℚ) - d| < |(5 : ℚ) - d| := by
    rw [e10, e5]; linarith
  have p2 : |(21.1 : ℚ) - d| < |(10 : ℚ) - d| := by
    rw [e21_1, e10]; linarith
  have p3 : |(42.2 : ℚ) - d| < |(21.1 : ℚ) - d| := by
    rw [e42_2, e21_1]; linarith
  have p4 : |(50 : ℚ) - d| < |(42.2 : ℚ) - d| := by
    rw [e50, e42_2]; linarith
  have p5 : |(100 : ℚ) - d| < |(50 : ℚ) - d| := by
    rw [e50]; linarith [abs_le.mp hcw]
  have p6 : ¬(|(109 : ℚ) - d| < |(100 : ℚ) - d|) := by
    intro hc; linarith [le_abs_self ((109 : ℚ) - d), hcw]
  have hb : snapBest d = 100 := by
    simp only [snapBest, List.foldl]
    rw [if_pos p1, if_pos p2, if_pos p3, if_pos p4, if_pos p5, if_neg p6]
  have hd0 : ¬(d ≤ 0) := by linarith
  simp only [snap_distance]
  rw [if_neg hd0, hb, if_pos hcw]

theorem snapkm_109 (d : ℚ) (h : |d - 109| ≤ 0.6) :
    snap_distance (some d) = some 109 := by
  obtain ⟨hlo, hhi⟩ := abs_le.mp h
  have hcw : |(109 : ℚ) - d| ≤ 0.6 := by rw [abs_sub_comm]; exact h
  have e5 : |(5 : ℚ) - d| = d - 5 := by
    rw [abs_of_nonpos (by linarith)]; ring
  have e10 : |(10 : ℚ) - d| = d - 10 := by
    rw [abs_of_nonpos (by linarith)]; ring
  have e21_1 : |(21.1 : ℚ) - d| = d - 21.1 := by
    rw [abs_of_nonpos (by linarith)]; ring
  have e42_2 : |(42.2 : ℚ) - d| = d - 42.2 := by
    rw [abs_of_nonpos (by linarith)]; ring
  have e50 : |(50 : ℚ) - d| = d - 50 := by
    rw [abs_of_nonpos (by linarith)]; ring
  have e100 : |(100 : ℚ) - d| = d - 100 := by
    rw [abs_of_nonpos (by linarith)]; ring
  have p1 : |(10 : ℚ) - d| < |(5 : ℚ) - d| := by
    rw [e10, e5]; linarith
  have p2 : |(21.1 : ℚ) - d| < |(10 : ℚ) - d| := by
    rw [e21_1, e10]; linarith
  have p3 : |(42.2 : ℚ) - d| < |(21.1 : ℚ) - d| := by
    rw [e42_2, e21_1]; linarith
  have p4 : |(50 : ℚ) - d| < |(42.2 : ℚ) - d| := by
    rw [e50, e42_2]; linarith
  have p5 : |(100 : ℚ) - d| < |(50 : ℚ) - d| := by
    rw [e100, e50]; linarith
  have p6 : |(109 : ℚ) - d| < |(100 : ℚ) - d| := by
    rw [e100]; linarith [abs_le.mp hcw]
  have hb : snapBest d = 109 := by
    simp only [snapBest, List.foldl]
    rw [if_pos p1, if_pos p2, if_pos p3, if_pos p4, if_pos p5, if_pos p6]
  have hd0 : ¬(d ≤ 0) := by linarith
  simp only [snap_distance]
  rw [if_neg hd0, hb, if_pos hcw]

/-- C6 counterexample: no standard distance is within 0.6 km of `-1`, yet
`snap_distance` maps `-1` to `none`, not to `-1` unchanged, because
non-positive (and missing) inputs are sent to `None` first. -/
theorem c6_counterexample : ¬ claimC6Stated := by
  intro h
  have h1 : snap_distance (some (-1)) = some (-1) := by
    refine h.2 (-1) ?_
    intro s hs
    simp only [STANDARD_DISTANCES, List.mem_cons, List.not_mem_nil, or_false] at hs
    rcases hs with h' | h' | h' | h' | h' | h' | h' <;> subst h' <;>
      rw [abs_of_nonpos (by norm_num)] <;> norm_num
  simp [snap_distance] at h1

/-- C6, amended: positive inputs within 0.6 km of a standard distance snap to
it; positive inputs farther than 0.6 km from every standard distance are
returned unchanged; non-positive and missing inputs return `None`. -/
theorem c6_amended :
    (∀ d s : ℚ, s ∈ STANDARD_DISTANCES → |d - s| ≤ 0.6 →
        snap_distance (some d) = some s) ∧
    (∀ d : ℚ, 0 < d → (∀ s ∈ STANDARD_DISTANCES, 0.6 < |d - s|) →
        snap_distance (some d) = some d) ∧
    (∀ d : ℚ, d ≤ 0 → snap_distance (some d) = none) ∧
    snap_distance none = none := by
  refine ⟨?_, ?_, ?_, rfl⟩
  · intro d s hs h
    simp only [STANDARD_DISTANCES, List.mem_cons, List.not_mem_nil, or_false] at hs
    rcases hs with h' | h' | h' | h' | h' | h' | h' <;> subst h'
    · exact snapkm_5 d h
    · exact snapkm_10 d h
    · exact snapkm_21 d h
    · exact snapkm_42 d h
    · exact snapkm_50 d h
    · exact snapkm_100 d h
    · exact snapkm_109 d h
  · intro d hpos hfar
    have hmem := snapBest_mem d
    have hfar' := hfar (snapBest d) hmem
    simp only [snap_distance]
    rw [if_neg (by linarith), if_neg (by rw [abs_sub_comm]; linarith)]
  · intro d hd
    simp only [snap_distance]
    rw [if_pos hd]

/-- Concrete check of `c6_amended`: 21.3 snaps to 21.1 and -2 gives `None`. -/
theorem c6_amended_witness :
    snap_distance (some 21.3) = some 21.1 ∧ snap_distance (some (-2)) = none :=
  ⟨c6_amended.1 21.3 21.1 (by simp [STANDARD_DISTANCES])
      (by rw [abs_of_nonneg (by norm_num)]; norm_num),
    c6_amended.2.2.1 (-2) (by norm_num)⟩

/-- C5 counterexample: with `race_total_km = 0` (a known total) and a last
split at 40 km, the claim's rule (a) demands promotion (40 ≥ 0 − 1), but the
code treats a zero total as unknown (Python falsiness) and, since
40 ∉ [41.5, 43], leaves the label unchanged. -/
theorem c5_counterexample : ¬ claimC5Stated := by
  intro h
  have h1 := (h [c5_ex_split] c5_ex_split (some 0) rfl (by decide)).1
    (Or.inl ⟨0, rfl, 40, rfl, by norm_num⟩)
  have hft : finishTail (effTarget (some 0)) c5_ex_split.point_km = false := by
    have he : effTarget (some (0 : ℚ)) = none := by simp [effTarget]
    have hk : c5_ex_split.point_km = some 40 := rfl
    rw [he, hk]
    simp only [finishTail, decide_eq_false_iff_not]
    norm_num
  have h2 : ensure_finish_label [c5_ex_split] (some 0) = [c5_ex_split] := by
    simp only [ensure_finish_label, List.getLast?_singleton]
    rw [if_neg (by decide), if_neg (by rw [hft]; simp)]
  rw [h2] at h1
  simp only [List.dropLast_single, List.nil_append, List.cons.injEq, and_true] at h1
  exact absurd (congrArg Split.point_label h1) (by decide)

/-- C5, amended: for a non-empty split list whose last split's cleaned label
is not a finish label, the label is set to `Finish` exactly when either a
known NONZERO total satisfies `point_km ≥ total − 1`, or no nonzero total is
known and `point_km ∈ [41.5, 43]`; all other splits and fields unchanged. -/
theorem c5_amended (splits : List Split) (last : Split) (total : Option ℚ)
    (hlast : splits.getLast? = some last)
    (hnf : is_finish_label (cleanText (last.point_label.getD [])) = false) :
    (c5_amended_cond last total →
        ensure_finish_label splits total =
          splits.dropLast ++ [{ last with point_label := some "Finish".toList }]) ∧
    (¬ c5_amended_cond last total → ensure_finish_label splits total = splits) := by
  constructor
  · intro hc
    simp only [ensure_finish_label, hlast]
    rw [if_neg (by simp [hnf])]
    rcases hc with ⟨t, htot, ht0, k, hk, hge⟩ | ⟨htot, k, hk, hge⟩
    · subst htot
      have he : effTarget (some t) = some t := by simp [effTarget, ht0]
      rw [if_pos (by rw [he, hk]; simp only [finishTail, decide_eq_true_eq]; exact hge)]
    · have he : effTarget total = none := by
        rcases htot with h0 | h0 <;> subst h0 <;> simp [effTarget]
      rw [if_pos (by rw [he, hk]; simp only [finishTail, decide_eq_true_eq]; exact hge)]
  · intro hc
    simp only [ensure_finish_label, hlast]
    rw [if_neg (by simp [hnf])]
    by_cases hft : finishTail (effTarget total) last.point_km = true
    · exfalso
      apply hc
      rcases hk : last.point_km with _ | k
      · rcases he : effTarget total with _ | t <;> rw [he, hk] at hft <;>
          simp [finishTail] at hft
      · rcases he : effTarget total with _ | t <;> rw [he, hk] at hft <;>
          simp only [finishTail, decide_eq_true_eq] at hft
        · right
          refine ⟨?_, k, hk, hft⟩
          rcases total with _ | t'
          · exact Or.inl rfl
          · right
            simp only [effTarget] at he
            by_cases h0 : t' = 0
            · rw [h0]
            · rw [if_neg h0] at he; cases he
        · left
          rcases total with _ | t'
          · cases he
          · simp only [effTarget] at he
            by_cases h0 : t' = 0
            · rw [if_pos h0] at he; cases he
            · rw [if_neg h0] at he
              injection he with he'
              subst he'
              exact ⟨t', rfl, h0, k, hk, hft⟩
    · rw [if_neg hft]

/-- Concrete check of `c5_amended`: a 42.0 km last split with a known 42.2 km
total is promoted to `Finish`. -/
theorem c5_amended_witness :
    ensure_finish_label
        [{ point_label := some "42km".toList, point_km := some 42,
           net_time := none, pass_clock := none, pace := none }] (some 42.2) =
      [{ point_label := some "Finish".toList, point_km := some 42,
         net_time := none, pass_clock := none, pace := none }] := by
  have h := (c5_amended
    [{ point_label := some "42km".toList, point_km := some 42,
       net_time := none, pass_clock := none, pace := none }]
    { point_label := some "42km".toList, point_km := some 42,
      net_time := none, pass_clock := none, pace := none }
    (some 42.2) rfl (by decide)).1
    (Or.inl ⟨42.2, rfl, by norm_num, 42, rfl, by norm_num⟩)
  simpa using h

/-! ### Claim C9 -/

theorem ensure_finish_cases (splits : List Split) (total : Option ℚ) :
    ensure_finish_label splits total = splits ∨
    ∃ last, splits.getLast? = some last ∧
      ensure_finish_label splits total =
        splits.dropLast ++ [{ last with point_label := some "Finish".toList }] := by
  cases h : splits.getLast? with
  | none => left; simp [ensure_finish_label, h]
  | some last =>
    simp only [ensure_finish_label, h]
    by_cases hf : is_finish_label (cleanText (last.point_label.getD [])) = true
    · left; rw [if_pos hf]
    · rw [if_neg hf]
      by_cases ht : finishTail (effTarget total) last.point_km = true
      · right; exact ⟨last, rfl, by rw [if_pos ht]⟩
      · left; rw [if_neg ht]

/-- C9: label normalization is idempotent — applying `ensure_finish_label`
twice (with the same total, known or unknown) equals applying it once. -/
theorem c9_ensure_finish_label_idempotent (splits : List Split)
    (total : Option ℚ) :
    ensure_finish_label (ensure_finish_label splits total) total =
      ensure_finish_label splits total := by
  rcases ensure_finish_cases splits total with e | ⟨last, hlast, e⟩
  · rw [e, e]
  · rw [e]
    have hl : (splits.dropLast ++
        [{ last with point_label := some "Finish".toList }]).getLast? =
        some { last with point_label := some "Finish".toList } :=
      List.getLast?_concat _
    simp only [ensure_finish_label, hl]
    rw [if_pos (by decide)]

theorem digitChar_isDigit (n : ℕ) (h : n < 10) : (digitChar n).isDigit = true := by
  interval_cases n <;> decide

theorem digitChar_toNat (n : ℕ) (h : n < 10) : (digitChar n).toNat = 48 + n := by
  interval_cases n <;> decide

theorem natReprAux_all_digit (fuel : ℕ) : ∀ (n : ℕ) (acc : Str),
    acc.all Char.isDigit = true → (natReprAux fuel n acc).all Char.isDigit = true := by
  induction fuel with
  | zero => intro n acc hacc; exact hacc
  | succ fuel ih =>
    intro n acc hacc
    rw [natReprAux]
    split
    · next h => simp [List.all_cons, digitChar_isDigit n h, hacc]
    · next h =>
      exact ih (n / 10) _ (by
        simp [List.all_cons, digitChar_isDigit (n % 10) (Nat.mod_lt n (by norm_num)), hacc])

theorem natReprAux_ne_nil (fuel : ℕ) : ∀ (n : ℕ) (acc : Str),
    0 < fuel ∨ acc ≠ [] → natReprAux fuel n acc ≠ [] := by
  induction fuel with
  | zero =>
    intro n acc h
    rcases h with h | h
    · omega
    · exact h
  | succ fuel ih =>
    intro n acc _
    rw [natReprAux]
    split
    · simp
    · exact ih (n / 10) _ (Or.inr (by simp))

theorem digitsVal_foldl (l : Str) : ∀ a : ℕ,
    l.foldl (fun a c => 10 * a + (c.toNat - 48)) a = a * 10 ^ l.length + digitsVal l := by
  induction l with
  | nil => intro a; simp [digitsVal]
  | cons c r ih =>
    intro a
    rw [List.foldl_cons, ih (10 * a + (c.toNat - 48))]
    have h2 : digitsVal (c :: r) = (c.toNat - 48) * 10 ^ r.length + digitsVal r := by
      rw [digitsVal, List.foldl_cons, ih (10 * 0 + (c.toNat - 48))]
      norm_num
    rw [h2, List.length_cons]
    ring

theorem digitsVal_cons (c : Char) (l : Str) :
    digitsVal (c :: l) = (c.toNat - 48) * 10 ^ l.length + digitsVal l := by
  rw [digitsVal, List.foldl_cons, show 10 * 0 + (c.toNat - 48) = c.toNat - 48 by omega]
  exact digitsVal_foldl l _

theorem natReprAux_val (fuel : ℕ) : ∀ (n : ℕ) (acc : Str), n < 10 ^ fuel →
    digitsVal (natReprAux fuel n acc) = n * 10 ^ acc.length + digitsVal acc := by
  induction fuel with
  | zero =>
    intro n acc h
    have : n = 0 := by simpa using h
    subst this
    simp [natReprAux]
  | succ fuel ih =>
    intro n acc h
    rw [natReprAux]
    split
    · next hn =>
      rw [digitsVal_cons, digitChar_toNat n hn,
        show 48 + n - 48 = n by omega]
    · next hn =>
      have hdiv : n / 10 < 10 ^ fuel := by
        rw [Nat.div_lt_iff_lt_mul (by norm_num)]
        calc n < 10 ^ (fuel + 1) := h
          _ = 10 ^ fuel * 10 := by ring
      rw [ih (n / 10) _ hdiv, digitsVal_cons, digitChar_toNat (n % 10) (Nat.mod_lt n (by norm_num))]
      have hmod : 48 + n % 10 - 48 = n % 10 := by omega
      rw [hmod, List.length_cons]
      have : n / 10 * 10 ^ (acc.length + 1) = (n / 10 * 10) * 10 ^ acc.length := by ring
      rw [this, ← Nat.add_assoc, ← Nat.add_mul, Nat.div_add_mod']

theorem natRepr_all_digit (n : ℕ) : (natRepr n).all Char.isDigit = true :=
  natReprAux_all_digit (n + 1) n [] rfl

theorem natRepr_ne_nil (n : ℕ) : natRepr n ≠ [] :=
  natReprAux_ne_nil (n + 1) n [] (Or.inl (Nat.succ_pos n))

theorem digitsVal_natRepr (n : ℕ) : digitsVal (natRepr n) = n := by
  have h : n < 10 ^ (n + 1) :=
    lt_of_lt_of_le (Nat.lt_pow_self (by norm_num) n)
      (Nat.pow_le_pow_right (by norm_num) (Nat.le_succ n))
  have := natReprAux_val (n + 1) n [] h
  simpa [natRepr, digitsVal] using this

theorem intRepr_natCast (n : ℕ) : intRepr (n : ℤ) = natRepr n := by
  rw [intRepr, if_neg (not_lt.mpr (Int.natCast_nonneg n)), Int.toNat_natCast]

theorem pad2i_natCast_digits (m : ℕ) : (pad2i (m : ℤ)).all Char.isDigit = true := by
  rw [pad2i]
  split
  · next h =>
    have hm : m < 10 := by exact_mod_cast h.2
    simp [List.all_cons, digitChar_isDigit _ hm]
  · rw [intRepr_natCast]
    exact natRepr_all_digit m

theorem pad2i_natCast_val (m : ℕ) : digitsVal (pad2i (m : ℤ)) = m := by
  rw [pad2i]
  split
  · next h =>
    have hm : m < 10 := by exact_mod_cast h.2
    rw [show ((m : ℤ).toNat) = m from Int.toNat_natCast m]
    rw [digitsVal_cons, digitsVal_cons, digitChar_toNat m hm]
    simp [digitsVal]
  · rw [intRepr_natCast]
    exact digitsVal_natRepr m

theorem pad2i_ne_nil (m : ℕ) : pad2i (m : ℤ) ≠ [] := by
  rw [pad2i]
  split
  · simp
  · rw [intRepr_natCast]; exact natRepr_ne_nil m

theorem digit_not_space {c : Char} (h : c.isDigit = true) : isSpaceChar c = false := by
  by_contra hs
  rw [Bool.not_eq_false] at hs
  simp only [isSpaceChar, Bool.or_eq_true, decide_eq_true_eq] at hs
  rcases hs with ((((h1 | h1) | h1) | h1) | h1) | h1 <;> subst h1 <;>
    exact absurd h (by decide)

theorem all_digit_not_colon (l : Str) (h : l.all Char.isDigit = true) : ':' ∉ l := by
  intro hc
  exact absurd (List.all_eq_true.mp h ':' hc) (by decide)

theorem dropWhile_eq_self_of (p : Char → Bool) (l : Str)
    (h : ∀ c ∈ l, p c = false) : l.dropWhile p = l := by
  cases l with
  | nil => rfl
  | cons c r => rw [List.dropWhile_cons, h c (List.mem_cons_self c r)]; simp

theorem stripStr_eq_self (l : Str) (h : ∀ c ∈ l, isSpaceChar c = false) :
    stripStr l = l := by
  rw [stripStr, dropWhile_eq_self_of _ _ h,
    dropWhile_eq_self_of _ _ (fun c hc => h c (List.mem_reverse.mp hc)),
    List.reverse_reverse]

theorem takeWhile_of_all (p : Char → Bool) (l : Str) (h : l.all p = true) :
    l.takeWhile p = l := by
  induction l with
  | nil => rfl
  | cons c r ih =>
    rw [List.all_cons, Bool.and_eq_true] at h
    rw [List.takeWhile_cons, h.1]
    simp [ih h.2]

theorem dropWhile_of_all (p : Char → Bool) (l : Str) (h : l.all p = true) :
    l.dropWhile p = [] := by
  induction l with
  | nil => rfl
  | cons c r ih =>
    rw [List.all_cons, Bool.and_eq_true] at h
    rw [List.dropWhile_cons, h.1]
    simp [ih h.2]

theorem isEmpty_false_of_ne {l : Str} (h : l ≠ []) : l.isEmpty = false := by
  cases l with
  | nil => exact absurd rfl h
  | cons c r => rfl

theorem splitOnColon_nocolon (b : Str) (hb : ':' ∉ b) : splitOnColon b = [b] := by
  induction b with
  | nil => rfl
  | cons c r ih =>
    have hc : ¬(c = ':') := fun h => hb (h ▸ List.mem_cons_self c r)
    rw [splitOnColon, if_neg hc, ih (fun h => hb (List.mem_cons_of_mem _ h))]

theorem splitOnColon_append (a b : Str) (ha : ':' ∉ a) :
    splitOnColon (a ++ ':' :: b) = a :: splitOnColon b := by
  induction a with
  | nil => simp [splitOnColon]
  | cons c r ih =>
    have hc : ¬(c = ':') := fun h => ha (by rw [h]; exact List.mem_cons_self _ _)
    rw [List.cons_append, splitOnColon, if_neg hc,
      ih (fun h => ha (List.mem_cons_of_mem _ h))]

theorem parseNat?_all_digit (l : Str) (hne : l ≠ [])
    (h : l.all Char.isDigit = true) : parseNat? l = some (digitsVal l) := by
  have hs : stripStr l = l :=
    stripStr_eq_self l (fun c hc => digit_not_space (List.all_eq_true.mp h c hc))
  rw [parseNat?]
  simp only [hs, isEmpty_false_of_ne hne, h]
  rfl

theorem parseNat?_natRepr (n : ℕ) : parseNat? (natRepr n) = some n := by
  rw [parseNat?_all_digit _ (natRepr_ne_nil n) (natRepr_all_digit n), digitsVal_natRepr]

theorem parseNat?_pad2i (m : ℕ) : parseNat? (pad2i (m : ℤ)) = some m := by
  rw [parseNat?_all_digit _ (pad2i_ne_nil m) (pad2i_natCast_digits m), pad2i_natCast_val]

theorem parseDec?_all_digit (l : Str) (hne : l ≠ [])
    (h : l.all Char.isDigit = true) : parseDec? l = some ((digitsVal l : ℕ) : ℚ) := by
  have hs : stripStr l = l :=
    stripStr_eq_self l (fun c hc => digit_not_space (List.all_eq_true.mp h c hc))
  rw [parseDec?]
  simp only [hs, takeWhile_of_all _ _ h, dropWhile_of_all _ _ h,
    isEmpty_false_of_ne hne]
  rfl

theorem parseDec?_pad2i (s : ℕ) : parseDec? (pad2i (s : ℤ)) = some ((s : ℕ) : ℚ) := by
  rw [parseDec?_all_digit _ (pad2i_ne_nil s) (pad2i_natCast_digits s), pad2i_natCast_val]

theorem pyRound_natCast (n : ℕ) : pyRound ((n : ℚ)) = (n : ℤ) := by
  rw [pyRound]
  rw [show ⌊(n : ℚ)⌋ = (n : ℤ) from Int.floor_natCast n]
  rw [if_pos (by push_cast; norm_num)]

theorem natCast_fdiv (a b : ℕ) : ((a : ℤ)).fdiv (b : ℤ) = ((a / b : ℕ) : ℤ) := by
  rw [Int.fdiv_eq_ediv _ (by positivity)]
  exact (Int.ofNat_div a b).symm

theorem natCast_fmod (a b : ℕ) : ((a : ℤ)).fmod (b : ℤ) = ((a % b : ℕ) : ℤ) := by
  rw [Int.fmod_eq_emod _ (by positivity)]
  exact (Int.ofNat_mod a b).symm

theorem sec_mkHMS (h m s : ℕ) :
    sec_from_mmss (mkHMS h m s) = some ((h * 3600 + m * 60 + s : ℕ) : ℤ) := by
  have hd1 := natRepr_all_digit h
  have hd2 := pad2i_natCast_digits m
  have hd3 := pad2i_natCast_digits s
  have hmk : mkHMS h m s =
      natRepr h ++ (':' :: (pad2i (m : ℤ) ++ (':' :: pad2i (s : ℤ)))) := by
    rw [mkHMS, intRepr_natCast]
  have hne : mkHMS h m s ≠ [] := by
    rw [hmk]
    intro he
    exact natRepr_ne_nil h (List.append_eq_nil.mp he).1
  have hns : ∀ c ∈ mkHMS h m s, isSpaceChar c = false := by
    intro c hc
    rw [hmk] at hc
    rcases List.mem_append.mp hc with hc | hc
    · exact digit_not_space (List.all_eq_true.mp hd1 c hc)
    · rcases List.mem_cons.mp hc with hc | hc
      · subst hc; decide
      · rcases List.mem_append.mp hc with hc | hc
        · exact digit_not_space (List.all_eq_true.mp hd2 c hc)
        · rcases List.mem_cons.mp hc with hc | hc
          · subst hc; decide
          · exact digit_not_space (List.all_eq_true.mp hd3 c hc)
  have hsplit : splitOnColon (mkHMS h m s) =
      [natRepr h, pad2i (m : ℤ), pad2i (s : ℤ)] := by
    rw [hmk, splitOnColon_append _ _ (all_digit_not_colon _ hd1),
      splitOnColon_append _ _ (all_digit_not_colon _ hd2),
      splitOnColon_nocolon _ (all_digit_not_colon _ hd3)]
  rw [sec_from_mmss, if_neg (by rw [isEmpty_false_of_ne hne]; simp),
    stripStr_eq_self _ hns, hsplit]
  simp only [parseNat?_natRepr, parseNat?_pad2i, parseDec?_pad2i]
  have harg : ((h * 3600 + m * 60 : ℕ) : ℚ) + ((s : ℕ) : ℚ) =
      ((h * 3600 + m * 60 + s : ℕ) : ℚ) := by push_cast; ring
  rw [harg, pyRound_natCast]

theorem sec_mkMS (m s : ℕ) :
    sec_from_mmss (mkMS m s) = some ((m * 60 + s : ℕ) : ℤ) := by
  have hd2 := pad2i_natCast_digits m
  have hd3 := pad2i_natCast_digits s
  have hne : mkMS m s ≠ [] := by
    rw [mkMS]
    intro he
    exact pad2i_ne_nil m (List.append_eq_nil.mp he).1
  have hns : ∀ c ∈ mkMS m s, isSpaceChar c = false := by
    intro c hc
    rw [mkMS] at hc
    rcases List.mem_append.mp hc with hc | hc
    · exact digit_not_space (List.all_eq_true.mp hd2 c hc)
    · rcases List.mem_cons.mp hc with hc | hc
      · subst hc; decide
      · exact digit_not_space (List.all_eq_true.mp hd3 c hc)
  have hsplit : splitOnColon (mkMS m s) = [pad2i (m : ℤ), pad2i (s : ℤ)] := by
    rw [mkMS, splitOnColon_append _ _ (all_digit_not_colon _ hd2),
      splitOnColon_nocolon _ (all_digit_not_colon _ hd3)]
  rw [sec_from_mmss, if_neg (by rw [isEmpty_false_of_ne hne]; simp),
    stripStr_eq_self _ hns, hsplit]
  simp only [parseNat?_pad2i, parseDec?_pad2i]
  have harg : ((m * 60 : ℕ) : ℚ) + ((s : ℕ) : ℚ) = ((m * 60 + s : ℕ) : ℚ) := by
    push_cast; ring
  rw [harg, pyRound_natCast]

theorem formatDuration_eval (h m s : ℕ) (hm : m < 60) (hs : s < 60) :
    formatDuration ((h * 3600 + m * 60 + s : ℕ) : ℤ) =
      if 0 < h then mkHMS h m s else mkMS m s := by
  have hdiv1 : (h * 3600 + m * 60 + s) / 3600 = h := by omega
  have hmod1 : (h * 3600 + m * 60 + s) % 3600 = m * 60 + s := by omega
  have hdiv2 : (m * 60 + s) / 60 = m := by omega
  have hmod2 : (h * 3600 + m * 60 + s) % 60 = s := by omega
  have e1 : ((h * 3600 + m * 60 + s : ℕ) : ℤ).fdiv 3600 = (h : ℤ) := by
    rw [show (3600 : ℤ) = ((3600 : ℕ) : ℤ) by norm_num, natCast_fdiv, hdiv1]
  have e2 : (((h * 3600 + m * 60 + s : ℕ) : ℤ).fmod 3600).fdiv 60 = (m : ℤ) := by
    rw [show (3600 : ℤ) = ((3600 : ℕ) : ℤ) by norm_num, natCast_fmod, hmod1,
      show (60 : ℤ) = ((60 : ℕ) : ℤ) by norm_num, natCast_fdiv, hdiv2]
  have e3 : ((h * 3600 + m * 60 + s : ℕ) : ℤ).fmod 60 = (s : ℤ) := by
    rw [show (60 : ℤ) = ((60 : ℕ) : ℤ) by norm_num, natCast_fmod, hmod2]
  rw [formatDuration, e1, e2, e3]
  by_cases hh : 0 < h
  · rw [if_pos (by exact_mod_cast hh), if_pos hh, mkHMS]
  · rw [if_neg (by exact_mod_cast hh), if_neg hh, mkMS]

/-- C8 counterexample: `"0:05:30"` is of the form `H:MM:SS`, parses to 330 s,
but formats back as `"05:30"` because the formatter drops a zero hour part. -/
theorem c8_counterexample : ¬ claimC8Stated := by
  intro hcl
  have h1 := hcl.1 0 5 30 (by norm_num) (by norm_num)
  rw [sec_mkHMS 0 5 30] at h1
  simp only [Option.map_some'] at h1
  rw [show ((0 * 3600 + 5 * 60 + 30 : ℕ) : ℤ) = ((0 * 3600 + 5 * 60 + 30 : ℕ) : ℤ) from rfl,
    formatDuration_eval 0 5 30 (by norm_num) (by norm_num), if_neg (by norm_num)] at h1
  have h2 : mkMS 5 30 = mkHMS 0 5 30 := Option.some_injective _ h1
  exact absurd h2 (by decide)

/-- C8, amended: the round-trip `format_duration(parse_duration(s)) == s`
holds for every string of the form `H:MM:SS` with a POSITIVE hour part
(rendered without leading zeros) and two-digit `MM`, `SS` below 60, and for
every string of the form `MM:SS` with two-digit `MM`, `SS` below 60; a zero
hour part (`0:MM:SS`) formats back as `MM:SS` and is excluded. -/
theorem c8_amended :
    (∀ h m s : ℕ, 1 ≤ h → m < 60 → s < 60 →
        (sec_from_mmss (mkHMS h m s)).map formatDuration = some (mkHMS h m s)) ∧
    (∀ m s : ℕ, m < 60 → s < 60 →
        (sec_from_mmss (mkMS m s)).map formatDuration = some (mkMS m s)) := by
  constructor
  · intro h m s hh hm hs
    rw [sec_mkHMS h m s]
    simp only [Option.map_some']
    rw [formatDuration_eval h m s hm hs, if_pos (by omega)]
  · intro m s hm hs
    rw [sec_mkMS m s]
    simp only [Option.map_some']
    have : ((m * 60 + s : ℕ) : ℤ) = ((0 * 3600 + m * 60 + s : ℕ) : ℤ) := by norm_num
    rw [this, formatDuration_eval 0 m s hm hs, if_neg (by norm_num)]

/-- Concrete check of `c8_amended`: `"1:02:03"` and `"04:05"` round-trip. -/
theorem c8_amended_witness :
    (sec_from_mmss (mkHMS 1 2 3)).map formatDuration = some (mkHMS 1 2 3) ∧
    (sec_from_mmss (mkMS 4 5)).map formatDuration = some (mkMS 4 5) :=
  ⟨c8_amended.1 1 2 3 (by norm_num) (by norm_num) (by norm_num),
    c8_amended.2 4 5 (by norm_num) (by norm_num)⟩

theorem should_run_char (st : AdaptiveScheduler) (mid : ℤ) (refresh_sec now : ℚ)
    (hf : 0 < getFailures st mid) :
    should_run_marathon st mid refresh_sec now = true ↔
      (max st.min_marathon_interval refresh_sec ≤ now - getLastRun st mid ∧
        min (refresh_sec * 2 ^ getFailures st mid) 300 ≤ now - getLastRun st mid) := by
  rw [should_run_marathon]
  by_cases hb : should_run_marathon_base st mid refresh_sec now = false
  · rw [if_pos hb]
    simp only [should_run_marathon_base, decide_eq_false_iff_not] at hb
    constructor
    · intro h; simp at h
    · intro h; exact absurd h.1 hb
  · rw [if_neg hb]
    rw [Bool.not_eq_false] at hb
    simp only [should_run_marathon_base, decide_eq_true_eq] at hb
    rw [if_neg (by omega : ¬(getFailures st mid = 0))]
    simp only [decide_eq_true_eq]
    exact ⟨fun h => ⟨hb, h⟩, fun h => h.2⟩

theorem should_run_nofail (st : AdaptiveScheduler) (mid : ℤ)
    (refresh_sec now : ℚ) (hf : getFailures st mid = 0) :
    should_run_marathon st mid refresh_sec now = true ↔
      max st.min_marathon_interval refresh_sec ≤ now - getLastRun st mid := by
  rw [should_run_marathon]
  by_cases hb : should_run_marathon_base st mid refresh_sec now = false
  · rw [if_pos hb]
    simp only [should_run_marathon_base, decide_eq_false_iff_not] at hb
    constructor
    · intro h; simp at h
    · intro h; exact absurd h hb
  · rw [if_neg hb, if_pos hf]
    rw [Bool.not_eq_false] at hb
    simp only [should_run_marathon_base, decide_eq_true_eq] at hb
    simp [hb]

theorem record_failure_failures (st : AdaptiveScheduler) (mid : ℤ) (now : ℚ) :
    getFailures (record_failure st mid now) mid = getFailures st mid + 1 := by
  simp [record_failure, mark_marathon_run, getFailures]

theorem record_failure_lastRun (st : AdaptiveScheduler) (mid : ℤ) (now : ℚ) :
    getLastRun (record_failure st mid now) mid = now := by
  simp [record_failure, mark_marathon_run, getLastRun]

theorem record_success_failures (st : AdaptiveScheduler) (mid : ℤ) (now : ℚ) :
    getFailures (record_success st mid now) mid = 0 := by
  simp [record_success, mark_marathon_run, getFailures]

theorem record_success_lastRun (st : AdaptiveScheduler) (mid : ℤ) (now : ℚ) :
    getLastRun (record_success st mid now) mid = now := by
  simp [record_success, mark_marathon_run, getLastRun]

/-- C2 counterexample: with one failure, `last_run = 0`, `refresh_sec = 400`
and `now = 350`, the capped backoff `min(800, 300) = 300` has elapsed, so the
claimed iff admits the marathon — but the code's base interval check
(`max(min_interval, refresh_sec) = 400`) still rejects it. -/
theorem c2_counterexample : ¬ claimC2Stated := by
  intro h
  have hrhs : min ((400 : ℚ) * 2 ^ getFailures c2_ex_state 0) 300 ≤
      350 - getLastRun c2_ex_state 0 := by
    have : getLastRun c2_ex_state 0 = 0 := by simp [getLastRun, c2_ex_state]
    rw [this]
    exact le_trans (min_le_right _ _) (by norm_num)
  have h1 := (h.1 c2_ex_state 0 400 350
    (by simp [getFailures, c2_ex_state])).mpr hrhs
  have hbase : should_run_marathon_base c2_ex_state 0 400 350 = false := by
    simp only [should_run_marathon_base, decide_eq_false_iff_not]
    have : getLastRun c2_ex_state 0 = 0 := by simp [getLastRun, c2_ex_state]
    rw [this, show c2_ex_state.min_marathon_interval = 5 from rfl,
      max_eq_right (by norm_num : (5 : ℚ) ≤ 400)]
    norm_num
  rw [should_run_marathon, if_pos hbase] at h1
  simp at h1

/-- C2, amended: with failures present the marathon is admitted iff BOTH the
base interval `max(min_marathon_interval, refresh_sec)` and the capped
backoff `min(refresh_sec·2^failures, 300)` have elapsed since `last_run`;
`record_success` resets the failure count to zero and `record_failure`
increments it (both updating `last_run`); with the default 5 s minimum
interval and `refresh_sec = 60`, three consecutive failures give next-admit
thresholds 120, 240, 300, and a subsequent success restores `last_run + 60`. -/
theorem c2_amended :
    (∀ (st : AdaptiveScheduler) (mid : ℤ) (refresh_sec now : ℚ),
        0 < getFailures st mid →
        (should_run_marathon st mid refresh_sec now = true ↔
          (max st.min_marathon_interval refresh_sec ≤ now - getLastRun st mid ∧
            min (refresh_sec * 2 ^ getFailures st mid) 300 ≤
              now - getLastRun st mid))) ∧
    (∀ (st : AdaptiveScheduler) (mid : ℤ) (now : ℚ),
        getFailures (record_success st mid now) mid = 0 ∧
        getLastRun (record_success st mid now) mid = now) ∧
    (∀ (st : AdaptiveScheduler) (mid : ℤ) (now : ℚ),
        getFailures (record_failure st mid now) mid = getFailures st mid + 1 ∧
        getLastRun (record_failure st mid now) mid = now) ∧
    (∀ (st : AdaptiveScheduler) (mid : ℤ) (t1 t2 t3 t4 now : ℚ),
        st.min_marathon_interval = 5 →
        getFailures st mid = 0 →
        (should_run_marathon (record_failure st mid t1) mid 60 now = true ↔
          120 ≤ now - t1) ∧
        (should_run_marathon
            (record_failure (record_failure st mid t1) mid t2) mid 60 now = true ↔
          240 ≤ now - t2) ∧
        (should_run_marathon
            (record_failure (record_failure (record_failure st mid t1) mid t2)
              mid t3) mid 60 now = true ↔
          300 ≤ now - t3) ∧
        (should_run_marathon
            (record_success
              (record_failure (record_failure (record_failure st mid t1) mid t2)
                mid t3) mid t4) mid 60 now = true ↔
          60 ≤ now - t4)) := by
  refine ⟨should_run_char, ?_, ?_, ?_⟩
  · intro st mid now
    exact ⟨record_success_failures st mid now, record_success_lastRun st mid now⟩
  · intro st mid now
    exact ⟨record_failure_failures st mid now, record_failure_lastRun st mid now⟩
  · intro st mid t1 t2 t3 t4 now h5 h0
    have hmin : ∀ x : AdaptiveScheduler, x.min_marathon_interval = 5 →
        max x.min_marathon_interval (60 : ℚ) = 60 := by
      intro x hx; rw [hx]; exact max_eq_right (by norm_num)
    have h5a : (record_failure st mid t1).min_marathon_interval = 5 := h5
    have h5b : (record_failure (record_failure st mid t1) mid t2).min_marathon_interval = 5 := h5
    have h5c : (record_failure (record_failure (record_failure st mid t1) mid t2)
        mid t3).min_marathon_interval = 5 := h5
    have h5d : (record_success
        (record_failure (record_failure (record_failure st mid t1) mid t2)
          mid t3) mid t4).min_marathon_interval = 5 := h5
    have f1 : getFailures (record_failure st mid t1) mid = 1 := by
      rw [record_failure_failures, h0]
    have f2 : getFailures (record_failure (record_failure st mid t1) mid t2) mid = 2 := by
      rw [record_failure_failures, f1]
    have f3 : getFailures (record_failure (record_failure (record_failure st mid t1)
        mid t2) mid t3) mid = 3 := by
      rw [record_failure_failures, f2]
    have f4 : getFailures (record_success
        (record_failure (record_failure (record_failure st mid t1) mid t2)
          mid t3) mid t4) mid = 0 := record_success_failures _ _ _
    refine ⟨?_, ?_, ?_, ?_⟩
    · rw [should_run_char _ _ _ _ (by rw [f1]; norm_num), f1, record_failure_lastRun,
        hmin _ h5a]
      rw [show (60 : ℚ) * 2 ^ (1 : ℕ) = 120 by norm_num,
        min_eq_left (by norm_num : (120 : ℚ) ≤ 300)]
      exact ⟨fun h => h.2, fun h => ⟨by linarith, h⟩⟩
    · rw [should_run_char _ _ _ _ (by rw [f2]; norm_num), f2, record_failure_lastRun,
        hmin _ h5b]
      rw [show (60 : ℚ) * 2 ^ (2 : ℕ) = 240 by norm_num,
        min_eq_left (by norm_num : (240 : ℚ) ≤ 300)]
      exact ⟨fun h => h.2, fun h => ⟨by linarith, h⟩⟩
    · rw [should_run_char _ _ _ _ (by rw [f3]; norm_num), f3, record_failure_lastRun,
        hmin _ h5c]
      rw [show (60 : ℚ) * 2 ^ (3 : ℕ) = 480 by norm_num,
        min_eq_right (by norm_num : (300 : ℚ) ≤ 480)]
      exact ⟨fun h => h.2, fun h => ⟨by linarith, h⟩⟩
    · rw [should_run_nofail _ _ _ _ f4, record_success_lastRun, hmin _ h5d]

/-- Concrete check of `c2_amended`: one failure, `last_run = 0`,
`refresh_sec = 60`, `now = 130` — admitted since both 60 and 120 elapsed. -/
theorem c2_amended_witness :
    should_run_marathon c2_ex_state 0 60 130 = true :=
  (c2_amended.1 c2_ex_state 0 60 130 (by simp [getFailures, c2_ex_state])).mpr
    ⟨by
      simp only [getLastRun, c2_ex_state, Option.getD_some]
      rw [max_eq_right (by norm_num : (5 : ℚ) ≤ 60)]
      norm_num,
     by
      simp only [getFailures, getLastRun, c2_ex_state, Option.getD_some]
      exact le_trans (min_le_left _ _) (by norm_num)⟩

theorem rowKey_ite_upd (row r : SplitRow) :
    rowKey (if rowKey row = rowKey r then updRow row r else row) = rowKey row := by
  split <;> rfl

theorem findRow_map_upd (T : List SplitRow) (r : SplitRow) (k : ℤ × Str) :
    findRow (T.map (fun row => if rowKey row = rowKey r then updRow row r else row)) k =
      (findRow T k).map (fun row => if rowKey row = rowKey r then updRow row r else row) := by
  induction T with
  | nil => rfl
  | cons a T ih =>
    simp only [findRow, List.map_cons] at *
    by_cases h : rowKey a = k
    · rw [List.find?_cons_of_pos _
          (by simp only [decide_eq_true_eq, rowKey_ite_upd]; exact h),
        List.find?_cons_of_pos _ (by simp [h])]
      simp
    · rw [List.find?_cons_of_neg _
          (by simp only [decide_eq_true_eq, rowKey_ite_upd]; exact h),
        List.find?_cons_of_neg _ (by simp [h])]
      exact ih

theorem findRow_append (T₁ T₂ : List SplitRow) (k : ℤ × Str) :
    findRow (T₁ ++ T₂) k =
      (match findRow T₁ k with
        | some x => some x
        | none => findRow T₂ k) := by
  induction T₁ with
  | nil => simp [findRow]
  | cons a T ih =>
    simp only [findRow, List.cons_append] at *
    by_cases h : rowKey a = k
    · rw [List.find?_cons_of_pos _ (by simp [h]), List.find?_cons_of_pos _ (by simp [h])]
    · rw [List.find?_cons_of_neg _ (by simp [h]), List.find?_cons_of_neg _ (by simp [h])]
      exact ih

theorem upsert_conflict (T : List SplitRow) (r row0 : SplitRow)
    (h : findRow T (rowKey r) = some row0) :
    findRow (upsertSplit T r) (rowKey r) = some (updRow row0 r) := by
  have hp := List.find?_some h
  have hmem := List.mem_of_find?_eq_some h
  have hany : T.any (fun row => decide (rowKey row = rowKey r)) = true := by
    rw [List.any_eq_true]
    exact ⟨row0, hmem, hp⟩
  rw [upsertSplit, if_pos hany, findRow_map_upd, h]
  have hk : rowKey row0 = rowKey r := by simpa using hp
  simp [hk]

theorem upsert_new (T : List SplitRow) (r : SplitRow)
    (h : findRow T (rowKey r) = none) :
    findRow (upsertSplit T r) (rowKey r) = some r := by
  have hany : T.any (fun row => decide (rowKey row = rowKey r)) = false := by
    rw [List.any_eq_false]
    intro x hx
    simpa using List.find?_eq_none.mp h x hx
  rw [upsertSplit, if_neg (by simp [hany]), findRow_append, h]
  simp [findRow]

theorem upsert_other (T : List SplitRow) (r : SplitRow) (k : ℤ × Str)
    (h : k ≠ rowKey r) :
    findRow (upsertSplit T r) k = findRow T k := by
  rw [upsertSplit]
  split
  · rw [findRow_map_upd]
    cases hf : findRow T k with
    | none => rfl
    | some row =>
      have hk : rowKey row = k := by simpa using List.find?_some hf
      simp [hk, h]
  · rw [findRow_append]
    cases hf : findRow T k with
    | some row => rfl
    | none =>
      show findRow [r] k = none
      rw [findRow, List.find?_cons_of_neg _
        (by simp only [decide_eq_true_eq]; exact fun he => h he.symm), List.find?_nil]

theorem upsert_preserves (T : List SplitRow) (r row : SplitRow) (hmem : row ∈ T) :
    ∃ row', row' ∈ upsertSplit T r ∧
      row'.participant_id = row.participant_id ∧
      row'.point_label = row.point_label ∧ row'.point_km = row.point_km := by
  rw [upsertSplit]
  split
  · refine ⟨if rowKey row = rowKey r then updRow row r else row,
      List.mem_map_of_mem _ hmem, ?_, ?_, ?_⟩ <;> split <;> rfl
  · exact ⟨row, List.mem_append_left _ hmem, rfl, rfl, rfl⟩

theorem applyTick_notmem (batch : List SplitRow) : ∀ (T : List SplitRow) (t : ℚ)
    (k : ℤ × Str), (∀ r ∈ batch, rowKey r ≠ k) →
    findRow (applyTick T batch t) k = findRow T k := by
  induction batch with
  | nil => intro T t k _; rfl
  | cons r bs ih =>
    intro T t k hk
    rw [applyTick, ih _ t k (fun r' hr' => hk r' (List.mem_cons_of_mem _ hr'))]
    exact upsert_other T _ k
      (fun he => hk r (List.mem_cons_self r bs) (Eq.symm he))

theorem applyTick_written (batch : List SplitRow) : ∀ (T : List SplitRow) (t : ℚ)
    (k : ℤ × Str), (∃ r ∈ batch, rowKey r = k) →
    ∃ row, findRow (applyTick T batch t) k = some row ∧ row.seen_at = t := by
  induction batch with
  | nil =>
    intro T t k hk
    rcases hk with ⟨r, hr, _⟩
    cases hr
  | cons r bs ih =>
    intro T t k hk
    rw [applyTick]
    by_cases hb : ∃ r' ∈ bs, rowKey r' = k
    · exact ih _ t k hb
    · rcases hk with ⟨r0, hr0, hkey⟩
      rcases List.mem_cons.mp hr0 with h0 | h0
      · subst h0
        have hk' : rowKey { r0 with seen_at := t } = k := hkey
        have hstable :
            findRow (applyTick (upsertSplit T { r0 with seen_at := t }) bs t) k =
              findRow (upsertSplit T { r0 with seen_at := t }) k :=
          applyTick_notmem bs _ t k (fun r' hr' he => hb ⟨r', hr', he⟩)
        cases hf : findRow T k with
        | some row0 =>
          have h2 := upsert_conflict T { r0 with seen_at := t } row0
            (by rw [hk']; exact hf)
          rw [hk'] at h2
          exact ⟨_, by rw [hstable, h2], rfl⟩
        | none =>
          have h2 := upsert_new T { r0 with seen_at := t } (by rw [hk']; exact hf)
          rw [hk'] at h2
          exact ⟨_, by rw [hstable, h2], rfl⟩
      · exact absurd ⟨r0, h0, hkey⟩ hb

/-- C4: on conflict only `net_time`, `pass_clock`, `pace`, `seen_at` are
updated (label and km of the stored row survive); upserts never delete rows;
and a key written in two ticks `t₁ < t₂` has a strictly larger `seen_at`
after the second tick. -/
theorem c4_split_upsert :
    (∀ (table : List SplitRow) (r row0 : SplitRow),
        findRow table (rowKey r) = some row0 →
        findRow (upsertSplit table r) (rowKey r) = some (updRow row0 r)) ∧
    (∀ (row0 r : SplitRow),
        (updRow row0 r).point_label = row0.point_label ∧
        (updRow row0 r).point_km = row0.point_km ∧
        (updRow row0 r).net_time = r.net_time ∧
        (updRow row0 r).pass_clock = r.pass_clock ∧
        (updRow row0 r).pace = r.pace ∧
        (updRow row0 r).seen_at = r.seen_at) ∧
    (∀ (table : List SplitRow) (r row : SplitRow), row ∈ table →
        ∃ row', row' ∈ upsertSplit table r ∧
          row'.participant_id = row.participant_id ∧
          row'.point_label = row.point_label ∧
          row'.point_km = row.point_km) ∧
    (∀ (table b1 b2 : List SplitRow) (t1 t2 : ℚ) (k : ℤ × Str), t1 < t2 →
        (∃ r ∈ b1, rowKey r = k) → (∃ r ∈ b2, rowKey r = k) →
        ∃ row1 row2,
          findRow (applyTick table b1 t1) k = some row1 ∧
          findRow (applyTick (applyTick table b1 t1) b2 t2) k = some row2 ∧
          row1.seen_at < row2.seen_at) := by
  refine ⟨upsert_conflict, fun row0 r => ⟨rfl, rfl, rfl, rfl, rfl, rfl⟩,
    upsert_preserves, ?_⟩
  intro table b1 b2 t1 t2 k ht hk1 hk2
  obtain ⟨row1, h1, e1⟩ := applyTick_written b1 table t1 k hk1
  obtain ⟨row2, h2, e2⟩ := applyTick_written b2 (applyTick table b1 t1) t2 k hk2
  exact ⟨row1, row2, h1, h2, by rw [e1, e2]; exact ht⟩

/-- Concrete check of `c4_split_upsert`: the same `(participant, label)` key
written at ticks 0 and 1 ends with a strictly larger `seen_at`. -/
theorem c4_witness :
    ∃ row1 row2,
      findRow (applyTick [] [c4_ex_row] 0) (rowKey c4_ex_row) = some row1 ∧
      findRow (applyTick (applyTick [] [c4_ex_row] 0) [c4_ex_row] 1)
        (rowKey c4_ex_row) = some row2 ∧
      row1.seen_at < row2.seen_at :=
  c4_split_upsert.2.2.2 [] [c4_ex_row] [c4_ex_row] 0 1 (rowKey c4_ex_row)
    (by norm_num) ⟨c4_ex_row, List.mem_singleton_self _, rfl⟩
    ⟨c4_ex_row, List.mem_singleton_self _, rfl⟩

theorem imageJob_needs_finished (splits : List Split) (assets : List ParsedAsset)
    (bib : Option Str) (h : imageJobEnqueued splits assets bib = true) :
    isFinishedCheck splits = true := by
  unfold imageJobEnqueued at h
  rw [List.any_eq_true] at h
  rcases h with ⟨a, _, ha⟩
  rcases hu : a.url with _ | u <;> rw [hu] at ha <;> dsimp only at ha
  · exact absurd ha (by simp)
  · by_cases h0 : u = []
    · rw [if_pos h0] at ha
      exact absurd ha (by simp)
    · rw [if_neg h0] at ha
      rcases hb : bib with _ | b <;> rw [hb] at ha <;> dsimp only at ha
      · exact absurd ha (by simp)
      · by_cases hb0 : b = []
        · rw [if_pos hb0] at ha
          exact absurd ha (by simp)
        · rwa [if_neg hb0] at ha

/-- C10: a certificate-image job is enqueued only if some split's label
(lower-cased) contains `"finish"` or `"도착"`; a participant with no such
label never has a job enqueued in that tick. -/
theorem c10_image_enqueue :
    (∀ (splits : List Split) (assets : List ParsedAsset) (bib : Option Str),
        imageJobEnqueued splits assets bib = true →
        ∃ s ∈ splits, labelIndicatesFinishEngine s = true) ∧
    (∀ (splits : List Split) (assets : List ParsedAsset) (bib : Option Str),
        (∀ s ∈ splits, labelIndicatesFinishEngine s = false) →
        imageJobEnqueued splits assets bib = false) := by
  constructor
  · intro splits assets bib h
    have := imageJob_needs_finished splits assets bib h
    rwa [isFinishedCheck, List.any_eq_true] at this
  · intro splits assets bib h
    cases hb : imageJobEnqueued splits assets bib with
    | false => rfl
    | true =>
      have := imageJob_needs_finished splits assets bib hb
      rw [isFinishedCheck, List.any_eq_true] at this
      rcases this with ⟨s, hs, hl⟩
      rw [h s hs] at hl
      exact absurd hl (by simp)

/-- Concrete check of `c10_image_enqueue`: a participant whose only finish
indication is `완주` gets no image job even with an asset and a bib. -/
theorem c10_witness :
    imageJobEnqueued [c10_ex_split] [c10_ex_asset] (some "123".toList) = false :=
  c10_image_enqueue.2 [c10_ex_split] [c10_ex_asset] (some "123".toList)
    (by
      intro s hs
      rw [List.mem_singleton] at hs
      subst hs
      decide)

/-- C7 counterexample: with the default configuration,
`sub.smartchip.co.kr` ends with the configured entry `smartchip.co.kr`, so
suffix matching would disable verification — but the code only does exact
set membership and keeps verification on. -/
theorem c7_counterexample : ¬ claimC7Stated := by
  intro h
  have hex : ∃ sfx ∈ parseInsecureHosts default_insec,
      sfx.isSuffixOf (lowerStr "sub.smartchip.co.kr".toList) = true := by decide
  have h2 := (h default_insec "sub.smartchip.co.kr".toList).mpr hex
  exact absurd h2 (by decide)

/-- C7, amended: with the toggle on, verification is disabled exactly for
hosts whose lower-casing EQUALS one of the configured entries (comma-split,
stripped, lower-cased); with the toggle off, no host verifies. -/
theorem c7_amended (cfg host : Str) :
    (verify_for_host (parseInsecureHosts cfg) true host = false ↔
      lowerStr host ∈ parseInsecureHosts cfg) ∧
    verify_for_host (parseInsecureHosts cfg) false host = false := by
  constructor
  · rw [verify_for_host]
    by_cases hm : lowerStr host ∈ parseInsecureHosts cfg <;> simp [hm]
  · rw [verify_for_host, Bool.and_false]

/-- Concrete check of `c7_amended`: the default entry `myresult.co.kr` has
verification off, and `example.com` verifies. -/
theorem c7_amended_witness :
    verify_for_host (parseInsecureHosts default_insec) true "myresult.co.kr".toList = false ∧
    verify_for_host (parseInsecureHosts default_insec) true "example.com".toList = true := by
  constructor
  · exact (c7_amended default_insec "myresult.co.kr".toList).1.mpr (by decide)
  · have h := (c7_amended default_insec "example.com".toList).1
    cases hv : verify_for_host (parseInsecureHosts default_insec) true "example.com".toList with
    | true => rfl
    | false => exact absurd (h.mp hv) (by decide)

theorem gap_foldl_shift (L : List (ℤ × ℤ)) : ∀ i : ℤ,
    L.foldl (fun acc p => acc + gapOf p) i =
      i + L.foldl (fun acc p => acc + gapOf p) 0 := by
  induction L with
  | nil => intro i; simp
  | cons p L ih =>
    intro i
    rw [List.foldl_cons, List.foldl_cons, ih (i + gapOf p), ih (0 + gapOf p)]
    ring

theorem gapSum_cons₂ (a b : ℤ) (l : List ℤ) :
    gapSum (a :: b :: l) = gapOf (a, b) + gapSum (b :: l) := by
  rw [gapSum, gapSum,
    show (a :: b :: l).zip (a :: b :: l).tail =
      (a, b) :: ((b :: l).zip (b :: l).tail) from rfl,
    List.foldl_cons, gap_foldl_shift]
  ring

theorem descents_cons₂ (a b : ℤ) (l : List ℤ) :
    descents (a :: b :: l) = (if b < a then 1 else 0) + descents (b :: l) := by
  rw [descents, descents,
    show (a :: b :: l).zip (a :: b :: l).tail =
      (a, b) :: ((b :: l).zip (b :: l).tail) from rfl,
    List.countP_cons]
  by_cases h : b < a <;> simp [h] <;> omega

theorem gapSum_mono (l : List ℤ) : ∀ a : ℤ, List.Chain' (· ≤ ·) (a :: l) →
    gapSum (a :: l) = (a :: l).getLast?.getD 0 - a := by
  induction l with
  | nil =>
    intro a _
    rw [show gapSum [a] = 0 from rfl, List.getLast?_singleton]
    simp
  | cons b r ih =>
    intro a hc
    rw [List.chain'_cons] at hc
    rw [gapSum_cons₂, ih b hc.2, show gapOf (a, b) = b - a from by
        simp [gapOf, not_lt.mpr hc.1],
      List.getLast?_cons_cons]
    ring

theorem gapSum_descents0 (l : List ℤ) : ∀ a : ℤ, descents (a :: l) = 0 →
    gapSum (a :: l) = (a :: l).getLast?.getD 0 - a := by
  induction l with
  | nil =>
    intro a _
    rw [show gapSum [a] = 0 from rfl, List.getLast?_singleton]
    simp
  | cons b r ih =>
    intro a hd
    rw [descents_cons₂] at hd
    by_cases hb : b < a
    · rw [if_pos hb] at hd; omega
    · rw [if_neg hb] at hd
      rw [gapSum_cons₂, ih b (by omega), show gapOf (a, b) = b - a from by
          simp [gapOf, hb],
        List.getLast?_cons_cons]
      ring

theorem gapSum_one_jump (l : List ℤ) : ∀ a : ℤ, descents (a :: l) = 1 →
    gapSum (a :: l) = (a :: l).getLast?.getD 0 - a + 86400 := by
  induction l with
  | nil => intro a h; simp [descents] at h
  | cons b r ih =>
    intro a h
    rw [descents_cons₂] at h
    by_cases hb : b < a
    · rw [if_pos hb] at h
      rw [gapSum_cons₂, gapSum_descents0 r b (by omega),
        show gapOf (a, b) = b + 86400 - a from by simp [gapOf, hb],
        List.getLast?_cons_cons]
      ring
    · rw [if_neg hb] at h
      rw [gapSum_cons₂, ih b (by omega),
        show gapOf (a, b) = b - a from by simp [gapOf, hb],
        List.getLast?_cons_cons]
      ring

/-- C3: over the participant's rows — deduplicated to the most recent
`seen_at` per `point_km`, ordered by `point_km`, clocks parsed to
seconds-of-day — a monotone clock sequence sums to last − first (the
telescoped sum of adjacent differences, no 86400 added); a sequence with
exactly one backward jump sums to last − first + 86400 (added exactly once);
and the example clocks 23:58:00, 00:02:00, 00:10:00 format to `00:12:00`. -/
theorem c3_clock_gap_net_time :
    (∀ (rows : List ClockRow) (a : ℤ) (l : List ℤ),
        clockSecs rows = a :: l → l ≠ [] →
        List.Chain' (· ≤ ·) (a :: l) →
        calc_net_time rows = some ((a :: l).getLast?.getD 0 - a)) ∧
    (∀ (rows : List ClockRow) (a : ℤ) (l : List ℤ),
        clockSecs rows = a :: l →
        descents (a :: l) = 1 →
        calc_net_time rows = some ((a :: l).getLast?.getD 0 - a + 86400)) ∧
    calculate_net_time_from_clocks c3_ex_rows = some "00:12:00".toList := by
  refine ⟨?_, ?_, ?_⟩
  · intro rows a l hcs hl hchain
    rw [calc_net_time, hcs,
      if_neg (by have := List.length_pos.mpr hl; simp only [List.length_cons]; omega),
      gapSum_mono l a hchain]
  · intro rows a l hcs hd
    have hl : l ≠ [] := by
      intro he
      subst he
      simp [descents] at hd
    rw [calc_net_time, hcs,
      if_neg (by have := List.length_pos.mpr hl; simp only [List.length_cons]; omega),
      gapSum_one_jump l a hd]
  · decide

/-- Concrete check of `c3_clock_gap_net_time`: monotone clocks 10:00:00 and
10:30:00 give 1800 s. -/
theorem c3_witness : calc_net_time c3_wit_rows = some 1800 := by
  have h := c3_clock_gap_net_time.1 c3_wit_rows 36000 [37800]
    (by decide) (by simp) (by norm_num [List.chain'_cons])
  simpa using h

/-- C1 counterexample: with a finish-labelled split carrying a net time
followed by a `도착` split carrying nothing, rule 1 as written (SOME finish
row with a value) declares finished, but the code checks only the LAST
finish-labelled row, which is empty, and no other rule fires. -/
theorem c1_counterexample : ¬ claimC1Stated := by
  intro h
  have h1 := h c1_ex_splits 1 (by simp [c1_ex_splits])
  have hL : check_finish_status c1_ex_splits 1 = notFinished := by decide
  have hR : claimC1Fin c1_ex_splits 1 = true := by decide
  rw [hL, hR] at h1
  exact absurd h1 (by simp [notFinished])

theorem rule2Step_some_iff (total : ℚ) (s : Split) (res : FinishStatus) :
    rule2Step total s = some res ↔
      ∃ pk, pointKmOf s = some pk ∧
        |pk - snappedTotal total| ≤ toleranceFor (snappedTotal total) ∧
        gateOk s = true ∧ res = mkFinish s := by
  rw [rule2Step]
  cases hk : pointKmOf s with
  | none => simp
  | some pk =>
    dsimp only
    by_cases h1 : |pk - snappedTotal total| ≤ toleranceFor (snappedTotal total)
    · rw [if_pos h1]
      by_cases h2 : gateOk s = true
      · rw [if_pos h2]
        simp only [Option.some.injEq]
        constructor
        · intro hres
          exact ⟨pk, rfl, h1, h2, hres.symm⟩
        · rintro ⟨pk', hpk', _, _, hres⟩
          rw [hres]
      · rw [if_neg h2]
        simp [h2]
    · rw [if_neg h1]
      simp only [Option.some.injEq]
      constructor
      · intro hfalse
        exact absurd hfalse (by simp)
      · rintro ⟨pk', hpk', htol', _, _⟩
        subst hpk'
        exact absurd htol' h1

theorem rule3Check_iff (splits : List Split) (total : ℚ) :
    (rule3Check splits total).finished = true ↔
      (0 < total ∧ ∃ last, splits.getLast? = some last ∧
        ∃ k, pointKmOf last = some k ∧ 0.9 ≤ k / total ∧ gateOk last = true) := by
  rw [rule3Check]
  by_cases h0 : 0 < total
  · rw [if_pos h0]
    cases hlast : splits.getLast? with
    | none => simp [notFinished]
    | some last =>
      dsimp only
      cases hk : pointKmOf last with
      | none => simp [notFinished, hk, h0]
      | some k =>
        dsimp only
        by_cases hr : 0.9 ≤ k / total
        · rw [if_pos hr]
          by_cases hg : gateOk last = true
          · rw [if_pos hg]
            simp only [mkFinish, true_iff]
            exact ⟨h0, last, rfl, k, hk, hr, hg⟩
          · rw [if_neg hg]
            simp [notFinished, hk, hg]
        · rw [if_neg hr]
          simp [notFinished, hk, hr]
  · rw [if_neg h0]
    simp [notFinished, h0]

theorem rule2Check_iff (splits : List Split) (total : ℚ) :
    (rule2Check splits total).finished = true ↔
      ((∃ s ∈ splits, ∃ pk, pointKmOf s = some pk ∧
          |pk - snappedTotal total| ≤ toleranceFor (snappedTotal total) ∧
          gateOk s = true) ∨
        (0 < total ∧ ∃ last, splits.getLast? = some last ∧
          ∃ k, pointKmOf last = some k ∧ 0.9 ≤ k / total ∧ gateOk last = true)) := by
  rw [rule2Check]
  cases hfs : splits.reverse.findSome? (rule2Step total) with
  | some res =>
    dsimp only
    obtain ⟨s, hs, hsome⟩ := List.exists_of_findSome?_eq_some hfs
    rw [rule2Step_some_iff] at hsome
    obtain ⟨pk, hk, htol, hg, hres⟩ := hsome
    subst hres
    constructor
    · intro _
      exact Or.inl ⟨s, List.mem_reverse.mp hs, pk, hk, htol, hg⟩
    · intro _
      rfl
  | none =>
    dsimp only
    have hall := List.findSome?_eq_none_iff.mp hfs
    rw [rule3Check_iff]
    constructor
    · exact Or.inr
    · rintro (⟨s, hs, pk, hk, htol, hg⟩ | h3)
      · have hnone := hall s (List.mem_reverse.mpr hs)
        rw [rule2Step, hk] at hnone
        dsimp only at hnone
        rw [if_pos htol, if_pos hg] at hnone
        exact absurd hnone (by simp)
      · exact h3

/-- C1, amended: rule 1 checks only the LAST split whose normalized label is
a finish label (finishing at that row when it carries a time-shaped or any
non-empty `net_time`/`pass_clock`); else rule 2 scans in reverse comparing
each split's `point_km` — or, when that field is missing or zero, the km
parsed from its label — against the SNAPPED total with the tolerance from
the table; else rule 3 fires only for a positive total when the last split's
km (same fallback) divided by the total is at least 0.9 and it carries a
time value; else not finished. -/
theorem c1_amended (splits : List Split) (total : ℚ) (hne : splits ≠ []) :
    ((check_finish_status splits total).finished = true ↔
      ((∃ lf, (splits.filter
            (fun s => is_finish_label (cleanOpt s.point_label))).getLast? = some lf ∧
          gateOk lf = true) ∨
        (∃ s ∈ splits, ∃ pk, pointKmOf s = some pk ∧
          |pk - snappedTotal total| ≤ toleranceFor (snappedTotal total) ∧
          gateOk s = true) ∨
        (0 < total ∧ ∃ last, splits.getLast? = some last ∧
          ∃ k, pointKmOf last = some k ∧ 0.9 ≤ k / total ∧
          gateOk last = true))) ∧
    (∀ lf, (splits.filter
          (fun s => is_finish_label (cleanOpt s.point_label))).getLast? = some lf →
        gateOk lf = true → check_finish_status splits total = mkFinish lf) := by
  have hemp : splits.isEmpty = false := by
    cases splits with
    | nil => exact absurd rfl hne
    | cons a l => rfl
  constructor
  · rw [check_finish_status, if_neg (by simp [hemp])]
    cases hflt : (splits.filter
        (fun s => is_finish_label (cleanOpt s.point_label))).getLast? with
    | some lf =>
      dsimp only
      by_cases hg : gateOk lf = true
      · rw [if_pos hg]
        simp only [mkFinish, true_iff]
        exact Or.inl ⟨lf, rfl, hg⟩
      · rw [if_neg hg, rule2Check_iff]
        constructor
        · exact fun h => Or.inr h
        · rintro (⟨lf', hlf', hg'⟩ | h)
          · injection hlf' with he
            subst he
            exact absurd hg' hg
          · exact h
    | none =>
      dsimp only
      rw [rule2Check_iff]
      constructor
      · exact fun h => Or.inr h
      · rintro (⟨lf', hlf', _⟩ | h)
        · exact Option.noConfusion hlf'
        · exact h
  · intro lf hflt hg
    rw [check_finish_status, if_neg (by simp [hemp]), hflt]
    dsimp only
    rw [if_pos hg]

/-- Concrete check of `c1_amended`: one finish-labelled split with a net
time is detected as finished. -/
theorem c1_amended_witness :
    (check_finish_status [c1_wit_split] 1).finished = true :=
  ((c1_amended [c1_wit_split] 1 (by simp)).1).mpr
    (Or.inl ⟨c1_wit_split, by decide, by decide⟩)
